import Mathlib

/-!
Verification of the retrieval-augmented diff-review engine
(genai-pr-reviewer).  The JavaScript source is shallowly embedded:
strings are `String`/`List Char`, JS numbers that hold line counts or
indices are `Nat`, similarity scores are `ℚ`, fallible lookups are
`Option`, and external collaborators (the embedder, the vector store's
similarity search, the splitter, the hash) are function parameters.
Each definition carries a comment naming the JS function it embeds.
-/

namespace PRReview

/-- Character list; JS strings are sequences of code units, all inputs here are ASCII-ish. -/
abbrev Chars := List Char

/-- JS `\s` / `String.prototype.trim` whitespace (ASCII part plus NBSP/BOM; the
repository's inputs never contain the exotic Unicode spaces). -/
def jsIsSpace (c : Char) : Bool :=
  c == ' ' || c == '\t' || c == '\n' || c == '\r' || c == '\x0b' || c == '\x0c' ||
  c == ' ' || c == '﻿'

/-- ASCII lower-casing, as JS `toLowerCase` acts on the ASCII inputs used here. -/
def jsToLower (c : Char) : Char :=
  if 'A' ≤ c && c ≤ 'Z' then Char.ofNat (c.toNat + 32) else c

/-- `String.prototype.toLowerCase` on a char list. -/
def lowerChars (cs : Chars) : Chars := cs.map jsToLower

/-- `String.prototype.trim`. -/
def trimChars (cs : Chars) : Chars :=
  ((cs.dropWhile jsIsSpace).reverse.dropWhile jsIsSpace).reverse

/-- Does `cs` start with `pre` (JS `String.prototype.startsWith`)? -/
def charsStartsWith : Chars → Chars → Bool
  | _, [] => true
  | [], _ :: _ => false
  | c :: cs, p :: ps => c == p && charsStartsWith cs ps

/-- JS `String.prototype.includes` (substring containment). -/
def containsSub : Chars → Chars → Bool
  | [], needle => needle.isEmpty
  | hay@(_ :: t), needle => charsStartsWith hay needle || containsSub t needle

/-- JS `String.prototype.endsWith`. -/
def charsEndsWith (cs suf : Chars) : Bool :=
  charsStartsWith cs.reverse suf.reverse

/-- JS `String.prototype.split(sep)` for a one-character separator:
always returns at least one (possibly empty) piece. -/
def splitCh (sep : Char) : Chars → List Chars
  | [] => [[]]
  | c :: cs =>
    if c == sep then [] :: splitCh sep cs
    else
      match splitCh sep cs with
      | [] => [[c]]
      | l :: ls => (c :: l) :: ls

/-- The lines of a JS string, `content.split('\n')`. -/
def linesOf (s : String) : List Chars := splitCh '\n' s.data

/-- `parseInt` on a non-empty all-digit capture. -/
def digitsToNat (cs : Chars) : Nat :=
  cs.foldl (fun n c => n * 10 + (c.toNat - 48)) 0

/-- JS `Array.prototype.findIndex`, as `Option Nat` instead of `-1`. -/
def jsFindIndex (p : α → Bool) : List α → Option Nat
  | [] => none
  | x :: t => if p x then some 0 else (jsFindIndex p t).map (· + 1)

/-- JS string-or fallback `a || b` on optional strings, where both
`undefined` and the empty string are falsy. -/
def jsOrStr (a b : Option String) : Option String :=
  match a with
  | some s => if s = "" then b else some s
  | none => b

/-! ### Chunker/Indexer (`CodebaseEmbeddingService`, src/unnamed/part_000) -/

/-- `createNamespaceName(owner, repo)`:
``` `${owner}_${repo}`.toLowerCase().replace(/[^a-z0-9_-]/g, '_').slice(0, 128) ``` -/
def createNamespaceName (owner repo : String) : String :=
  let joined := lowerChars (owner.data ++ '_' :: repo.data)
  let sanitized := joined.map fun c =>
    if ('a' ≤ c && c ≤ 'z') || ('0' ≤ c && c ≤ '9') || c == '_' || c == '-' then c else '_'
  String.mk (sanitized.take 128)

/-- `createChunkId(filePath, chunkIndex, contentHash)`:
``` `${this.namespace}_${filePath}_${chunkIndex}_${contentHash}`.replace(/[^a-zA-Z0-9_-]/g, '_') ``` -/
def createChunkId (nspace filePath : String) (chunkIndex : Nat) (contentHash : String) : String :=
  let raw := nspace ++ "_" ++ filePath ++ "_" ++ toString chunkIndex ++ "_" ++ contentHash
  String.mk (raw.data.map fun c =>
    if ('a' ≤ c && c ≤ 'z') || ('A' ≤ c && c ≤ 'Z') || ('0' ≤ c && c ≤ '9') ||
        c == '_' || c == '-' then c
    else '_')

/-- `shouldSkipFile(filePath)`: the denylist regexes of part_000, each of
which is a literal substring or suffix test. -/
def shouldSkipFile (filePath : String) : Bool :=
  let p := filePath.data
  containsSub p ".git/".data || containsSub p "node_modules/".data ||
  charsEndsWith p ".lock".data || charsEndsWith p ".min.js".data ||
  charsEndsWith p ".bundle.js".data || charsEndsWith p ".map".data ||
  (["png", "jpg", "jpeg", "gif", "svg", "ico", "pdf", "zip", "tar", "gz",
    "woff", "woff2", "ttf", "eot"].any fun ext =>
      charsEndsWith (lowerChars p) ('.' :: ext.data)) ||
  charsEndsWith p "package-lock.json".data || charsEndsWith p "yarn.lock".data

/-- One vector record prepared by `processFile` (id plus the metadata payload). -/
structure VectorRecord where
  id : String
  text : String
  filePath : String
  chunkIndex : Nat
  contentHash : String
deriving DecidableEq

/-- `processFile(filePath, content)` of part_000: split the content,
hash each chunk, and derive the deterministic chunk id.  The text
splitter and the md5 hash are external deterministic collaborators,
passed as functions. -/
def processFileVectors (splitter : String → List String) (md5 : String → String)
    (nspace filePath content : String) : List VectorRecord :=
  if shouldSkipFile filePath then []
  else
    (splitter content).enum.map fun (i, chunk) =>
      { id := createChunkId nspace filePath i (md5 chunk)
        text := chunk
        filePath := filePath
        chunkIndex := i
        contentHash := md5 chunk }

/-- The vector store namespace as a keyed list of points; `upsert` replaces the
point with the same id or appends a new one (Pinecone/Qdrant upsert semantics). -/
def upsertOne (store : List (String × VectorRecord)) (v : VectorRecord) :
    List (String × VectorRecord) :=
  if store.any (fun p => p.1 == v.id) then
    store.map fun p => if p.1 == v.id then (v.id, v) else p
  else store ++ [(v.id, v)]

/-- `upsertVectors(vectors)`: upsert every prepared vector in order. -/
def upsertVectors (store : List (String × VectorRecord)) (vs : List VectorRecord) :
    List (String × VectorRecord) :=
  vs.foldl upsertOne store

/-! ### The Qdrant indexing pipeline (`createEmbeddingsForRepo`, src/unnamed/part_002) -/

/-- An input file for `createEmbeddingsForRepo`. -/
structure RepoFile where
  path : String
  content : String

/-- The chunk-id assignment of `createEmbeddingsForRepo` (part_002): every
document gets `id: uuidv4()`.  The random UUID source is modelled as a
stream `uuid : Nat → String` consumed left to right; the skip rules
(`!content.trim()`, `content.length > 50000`) are those of the source. -/
def repoDocumentIds (splitter : String → List String) (uuid : Nat → String)
    (files : List RepoFile) : List String :=
  (files.foldl
    (fun (acc : Nat × List String) file =>
      if (trimChars file.content.data).isEmpty then acc
      else if file.content.length > 50000 then acc
      else
        (splitter file.content).foldl
          (fun (acc2 : Nat × List String) _chunk => (acc2.1 + 1, acc2.2 ++ [uuid acc2.1]))
          acc)
    (0, [])).2

/-! ### Change Classifier (`processCodeCommitPullRequest`, src/codecommit/codecommitService.js) -/

/-- An AWS blob reference, `{ path, blobId }`. -/
structure BlobRef where
  path : String
  blobId : String
deriving DecidableEq

/-- One entry of `response.differences`: `beforeBlob`/`afterBlob` may be
absent, `changeType` is the AWS letter (`"A"`, `"M"` or `"D"`). -/
structure DiffRecord where
  beforeBlob : Option BlobRef
  afterBlob : Option BlobRef
  changeType : String
deriving DecidableEq

/-- One page of `GetDifferences` results with its pagination token. -/
structure DiffPage where
  differences : List DiffRecord
  nextToken : Option String

instance : Inhabited DiffPage := ⟨⟨[], none⟩⟩

/-- An entry pushed onto `changedFiles` for downstream analysis. -/
structure AnalysisFile where
  filename : String
  beforeBlobId : Option String
  afterBlobId : Option String
  changeType : String
deriving DecidableEq

/-- `diff.afterBlob?.path || diff.beforeBlob?.path` (`''` counts as falsy). -/
def diffPath (d : DiffRecord) : Option String :=
  jsOrStr (d.afterBlob.map (·.path)) (d.beforeBlob.map (·.path))

/-- The `do ... while (nextToken)` pagination loop: the first page is always
fetched, and each further page is fetched only while the previous page
carried a `nextToken`. -/
def paginateDifferences : List DiffPage → List DiffRecord
  | [] => []
  | p :: rest =>
    p.differences ++ (if p.nextToken.isSome then paginateDifferences rest else [])

/-- The per-diff filter of `processCodeCommitPullRequest`: keep a file for
analysis iff `diff.changeType !== "D"` and it has a truthy path. -/
def analysisFileOf (d : DiffRecord) : Option AnalysisFile :=
  if d.changeType ≠ "D" then
    match diffPath d with
    | some fp =>
      if fp ≠ "" then
        some { filename := fp
               beforeBlobId := d.beforeBlob.map (·.blobId)
               afterBlobId := d.afterBlob.map (·.blobId)
               changeType := d.changeType }
      else none
    | none => none
  else none

/-- The `changedFiles` list accumulated over all pages. -/
def collectChangedFiles (pages : List DiffPage) : List AnalysisFile :=
  (paginateDifferences pages).filterMap analysisFileOf

/-! ### Context Retriever decision (`shouldUseContext`, src/unnamed/part_013;
`isArchitecturallyImportant`/`hasPublicApiChanges`, src/utils/languageDetector.js) -/

/-- The `changes` record produced by `analyzeSpecificChanges`. -/
structure SpecificChanges where
  addedImports : List String := []
  removedImports : List String := []
  addedFunctions : List String := []
  removedFunctions : List String := []
  addedClasses : List String := []
  removedClasses : List String := []
  addedLines : List String := []
  removedLines : List String := []
  modifiedLines : List String := []

/-- `filename.split('.').pop()?.toLowerCase()`. -/
def fileExtensionOf (filename : String) : String :=
  String.mk (lowerChars ((splitCh '.' filename.data).getLastD []))

/-- `isArchitecturallyImportant(filename, fileExtension)`: every regex in its
table is a literal suffix (`/index\.js$/`) or substring (`/config/`) test. -/
def isArchitecturallyImportant (filename : String) (fileExtension : String) : Bool :=
  let ends (s : String) : Bool := charsEndsWith filename.data s.data
  let has (s : String) : Bool := containsSub filename.data s.data
  if fileExtension = "js" then
    ends "index.js" || ends "app.js" || ends "main.js" || has "config" || has "router" ||
      has "controller" || has "service"
  else if fileExtension = "ts" then
    ends "index.ts" || ends "app.ts" || ends "main.ts" || ends ".d.ts" || has "types" ||
      has "interfaces"
  else if fileExtension = "java" then
    ends "Application.java" || ends "Config.java" || ends "Controller.java" ||
      ends "Service.java" || ends "Repository.java"
  else if fileExtension = "py" then
    ends "__init__.py" || ends "main.py" || ends "app.py" || ends "settings.py" ||
      ends "config.py"
  else if fileExtension = "go" then
    ends "main.go" || ends "init.go" || ends "config.go"
  else if fileExtension = "rs" then
    ends "main.rs" || ends "lib.rs" || ends "mod.rs"
  else if fileExtension = "php" then
    ends "index.php" || ends "config.php" || ends "bootstrap.php"
  else if fileExtension = "cs" then
    ends "Program.cs" || ends "Startup.cs" || ends ".Designer.cs"
  else false

/-- The `publicPatterns` table of `hasPublicApiChanges`, with its
`|| ['public ']` default for unknown extensions. -/
def publicPatternsFor (fileExtension : String) : List String :=
  if fileExtension = "java" then ["public ", "protected "]
  else if fileExtension = "cs" then ["public ", "protected ", "internal "]
  else if fileExtension = "cpp" then ["public:", "protected:"]
  else if fileExtension = "py" then []
  else if fileExtension = "js" then ["export ", "module.exports"]
  else if fileExtension = "ts" then ["export ", "public "]
  else if fileExtension = "go" then []
  else if fileExtension = "rs" then ["pub "]
  else if fileExtension = "php" then ["public ", "protected "]
  else ["public "]

/-- `hasPublicApiChanges(specificChanges, fileExtension)`. -/
def hasPublicApiChanges (changes : SpecificChanges) (fileExtension : String) : Bool :=
  let patterns := publicPatternsFor fileExtension
  (changes.addedFunctions ++ changes.addedClasses).any fun item =>
    patterns.any fun pat => containsSub item.data pat.data

/-- `shouldUseContext(specificChanges, filename)` (part_013). -/
def shouldUseContext (changes : SpecificChanges) (filename : String) : Bool :=
  let fileExtension := fileExtensionOf filename
  let hasNewImports := changes.addedImports.length > 0
  let hasNewFunctions := changes.addedFunctions.length > 0
  let hasNewClasses := changes.addedClasses.length > 0
  let hasRemovedFunctions := changes.removedFunctions.length > 0
  let hasRemovedClasses := changes.removedClasses.length > 0
  let isArchitecturalFile := isArchitecturallyImportant filename fileExtension
  let hasPublicChanges := hasPublicApiChanges changes fileExtension
  hasNewImports || hasNewFunctions || hasNewClasses ||
    hasRemovedFunctions || hasRemovedClasses ||
    isArchitecturalFile || hasPublicChanges

/-! ### Context Retriever fetch (`getRelevantContext` / `formatContextForPrompt`,
src/utils/qdrantKnowledgeBase.js) -/

/-- One Qdrant search hit (payload plus similarity score; scores are
modelled as rationals since the code only compares them). -/
structure SearchHit where
  text : String
  source : String
  chunkIndex : Nat
  language : String
  repository : String
  branch : String
  score : ℚ
deriving DecidableEq

/-- A context chunk as assembled by `getRelevantContext`. -/
structure ContextChunk where
  content : String
  source : String
  chunkIndex : Nat
  language : String
  repository : String
  branch : String
  similarity : ℚ
deriving DecidableEq

/-- The `{hasContext, contextChunks, relatedFiles, summary}` result. -/
structure ContextResult where
  hasContext : Bool
  contextChunks : List ContextChunk
  relatedFiles : List String
  summary : String

/-- `const collectionName = `${repositoryName}_${branchName}`.replace(/[\/:*?"<>|\s-]/g, '_').toLowerCase()`. -/
def collectionNameFor (repositoryName branchName : String) : String :=
  let raw := repositoryName.data ++ '_' :: branchName.data
  let sanitized := raw.map fun c =>
    if c == '/' || c == ':' || c == '*' || c == '?' || c == '"' || c == '<' || c == '>' ||
        c == '|' || jsIsSpace c || c == '-' then '_' else c
  String.mk (lowerChars sanitized)

/-- The `0.3` minimum-similarity threshold (`score_threshold: 0.3` and
`chunk.similarity > 0.3`), as the reduced rational `3/10` given by an explicit
numerator/denominator pair so that comparisons against it compute. -/
def scoreThreshold : ℚ := ⟨3, 10, by norm_num, by norm_num⟩

/-- `[...new Set(arr)]`: first-occurrence deduplication in encounter order. -/
def dedupFirst : List String → List String :=
  go []
where
  go (seen : List String) : List String → List String
    | [] => []
    | x :: t => if x ∈ seen then go seen t else x :: go (x :: seen) t

/-- `searchResults.map(result => ({content, metadata, similarity}))`. -/
def chunkOfHit (h : SearchHit) : ContextChunk :=
  { content := h.text, source := h.source, chunkIndex := h.chunkIndex,
    language := h.language, repository := h.repository, branch := h.branch,
    similarity := h.score }

/-- The pure tail of `getRelevantContext` on the hits returned by the
similarity search (the collection-existence check, embedding call and the
search itself are external). -/
def relevantContextFromResults (filename : String) (searchResults : List SearchHit) :
    ContextResult :=
  if searchResults.isEmpty then
    { hasContext := false, contextChunks := [], relatedFiles := [],
      summary := "No relevant context found in the knowledge base." }
  else
    let contextChunks := searchResults.map chunkOfHit
    let relatedFiles := dedupFirst (contextChunks.map (·.source))
    let externalContext := contextChunks.filter fun chunk =>
      chunk.source ≠ filename && chunk.similarity > scoreThreshold
    { hasContext := externalContext.length > 0
      contextChunks := externalContext
      relatedFiles := relatedFiles.filter (· ≠ filename)
      summary :=
        if externalContext.length > 0 then
          "Found " ++ toString externalContext.length ++ " related code chunks from " ++
            toString relatedFiles.length ++ " files"
        else "No relevant external context found." }

/-- `getRelevantContext(repositoryName, branchName, filename, fileContent, maxResults)`:
the similarity search runs against the single collection named after the
repository+branch; `search` stands for the external Qdrant query (issued
with `score_threshold: 0.3` and `limit: maxResults`). -/
def getRelevantContext (search : String → List SearchHit)
    (repositoryName branchName filename : String) : ContextResult :=
  relevantContextFromResults filename (search (collectionNameFor repositoryName branchName))

/-- `Math.max(...chunks.map(c => c.similarity))` for a chunk group. -/
def maxSimilarity (chunks : List ContextChunk) : ℚ :=
  ((chunks.map (·.similarity)).max?).getD 0

/-- The `chunksByFile` grouping of `formatContextForPrompt`: object keys in
first-insertion order, each holding its chunks in encounter order. -/
def chunksByFile : List ContextChunk → List (String × List ContextChunk)
  | [] => []
  | c :: t =>
    let rest := chunksByFile t
    if (chunksByFile t).any (fun g => g.1 == c.source) then
      rest.map fun g => if g.1 == c.source then (g.1, c :: g.2) else g
    else (c.source, [c]) :: rest

/-- `sortedFiles`: group by file, order by best similarity descending
(JS sort is stable), keep at most 5 distinct files. -/
def sortedPromptFiles (context : ContextResult) : List (String × List ContextChunk) :=
  ((chunksByFile context.contextChunks).insertionSort
      (fun a b => maxSimilarity b.2 ≤ maxSimilarity a.2)).take 5

/-- `formatContextForPrompt(context)`. -/
def formatContextForPrompt (context : ContextResult) : String :=
  if !context.hasContext then ""
  else
    let base := "\n## RELEVANT CODEBASE CONTEXT\n" ++ context.summary ++ "\n\n"
    (sortedPromptFiles context).foldl
      (fun acc fileGroup =>
        let bestChunk :=
          ((fileGroup.2.insertionSort fun a b => b.similarity ≤ a.similarity).headD
            { content := "", source := "", chunkIndex := 0, language := "",
              repository := "", branch := "", similarity := 0 })
        acc ++ "### Related Code from: " ++ fileGroup.1 ++ "\n" ++
          "```" ++ bestChunk.language ++ "\n" ++
          String.mk (trimChars bestChunk.content.data) ++ "\n```\n\n")
      base

/-- The Modified-file branch of `processFileContent`
(src/agents/langchainAgent.js): fetch cross-file context iff
`shouldUseContext` fires, otherwise use the fixed skipped-context record
without performing any retrieval. -/
def modifiedFileContext (fetch : String → ContextResult)
    (changes : SpecificChanges) (filename : String) : ContextResult :=
  if shouldUseContext changes filename then fetch filename
  else
    { hasContext := false, contextChunks := [], relatedFiles := [],
      summary := "Context skipped - diff-focused analysis." }

/-! ### Line Reconciler (`mapAILineToActualLine` / `validateLineInFile` /
`postInlineFileComment`, src/unnamed/part_015) -/

/-- `line.match(/^AFTER-(\d+):/)`, returning `parseInt(match[1])`.
The greedy `\d+` is the maximal digit run (the following `:` is not a digit). -/
def afterLabel (cs : Chars) : Option Nat :=
  if charsStartsWith cs "AFTER-".data then
    let rest := cs.drop 6
    let ds := rest.takeWhile Char.isDigit
    if ds.isEmpty then none
    else if charsStartsWith (rest.drop ds.length) [':'] then some (digitsToNat ds)
    else none
  else none

/-- `line.match(/^\s*(\d+):/)`, returning `parseInt(match[1])`.
Greedy `\s*` then `\d+` is deterministic: the classes are disjoint. -/
def plainLabel (cs : Chars) : Option Nat :=
  let rest := cs.dropWhile jsIsSpace
  let ds := rest.takeWhile Char.isDigit
  if ds.isEmpty then none
  else if charsStartsWith (rest.drop ds.length) [':'] then some (digitsToNat ds)
  else none

/-- `afterLines.some(line => line.match(/^AFTER-\d+:/))`. -/
def hasAfterMarks (afterLines : List Chars) : Bool :=
  afterLines.any fun l => (afterLabel l).isSome

/-- `afterLines.some(line => line.match(/^\s*\d+:/))`. -/
def hasNumberMarks (afterLines : List Chars) : Bool :=
  afterLines.any fun l => (plainLabel l).isSome

/-- `mapAILineToActualLine(aiLineNumber, afterContent)`: resolve a model-reported
line number against the injected per-line labels, falling back to the raw
number when no label matches (or no labels exist at all). -/
def mapAILineToActualLine (aiLineNumber : Nat) (afterContent : String) : Nat :=
  let afterLines := linesOf afterContent
  if hasAfterMarks afterLines then
    match jsFindIndex (fun l => afterLabel l == some aiLineNumber) afterLines with
    | some actualLine => actualLine + 1
    | none => aiLineNumber
  else if hasNumberMarks afterLines then
    match jsFindIndex (fun l => plainLabel l == some aiLineNumber) afterLines with
    | some actualLine => actualLine + 1
    | none => aiLineNumber
  else aiLineNumber

/-- `l.match(/^\s*(\d+):\s(.*)$/)` of the numbered branch of
`validateLineInFile`: label plus the content after the `: `. -/
def numberedLineParts (cs : Chars) : Option (Nat × Chars) :=
  let rest := cs.dropWhile jsIsSpace
  let ds := rest.takeWhile Char.isDigit
  if ds.isEmpty then none
  else
    match rest.drop ds.length with
    | ':' :: c :: tail => if jsIsSpace c then some (digitsToNat ds, tail) else none
    | _ => none

/-- Result object of `validateLineInFile` (absent JS fields are `none`). -/
structure Validation where
  valid : Bool
  totalLines : Option Nat
  lineContent : Option String
  error : Option String
deriving DecidableEq

/-- `validateLineInFile(line, afterContent, isNumberedContent = false)`. -/
def validateLineInFile (line : Nat) (afterContent : String)
    (isNumberedContent : Bool := false) : Validation :=
  if afterContent = "" then
    { valid := false, totalLines := none, lineContent := none,
      error := some "No file content provided for validation" }
  else
    let afterLines := linesOf afterContent
    let totalLines :=
      if isNumberedContent then (afterLines.filter fun l => (numberedLineParts l).isSome).length
      else afterLines.length
    let isValid := 1 ≤ line && line ≤ totalLines
    let lineContent : Option String :=
      if isValid then
        if isNumberedContent then
          match afterLines.find? (fun l => ((numberedLineParts l).map (·.1)) == some line) with
          | some l => (numberedLineParts l).map fun p => String.mk p.2
          | none => none
        else (afterLines.get? (line - 1)).map String.mk
      else none
    { valid := isValid
      totalLines := some totalLines
      lineContent := lineContent
      error :=
        if isValid then none
        else some ("Line " ++ toString line ++ " out of range (1-" ++ toString totalLines ++ ")") }

/-- What `postInlineFileComment` does with a reported line: either the comment
is sent to the hosting API anchored at `filePosition` on the AFTER side, or it
is dropped with the validation failure recorded in a failed `CommentResult`. -/
inductive PostOutcome where
  | posted (filePosition : Nat)
  | droppedInvalid (error : String) (line : Nat) (originalAILine : Nat)
deriving DecidableEq

/-- The pure line-resolution/validation prefix of `postInlineFileComment`:
map the reported number when `afterContent` is available, validate the mapped
line, and refuse to post on failure. -/
def postDecision (line : Nat) (afterContent : Option String) : PostOutcome :=
  match afterContent with
  | some ac =>
    let actualLine := mapAILineToActualLine line ac
    let validation := validateLineInFile actualLine ac
    if validation.valid then .posted actualLine
    else .droppedInvalid (validation.error.getD "") actualLine line
  | none => .posted line

/-- A rendering is labelled `1..N` when every physical line carries a parsable
label and the label of line `i` (0-based) is `i + 1`. -/
def labelledFromOne (labelFn : Chars → Option Nat) (lines : List Chars) : Bool :=
  (List.range lines.length).all fun i => labelFn (lines.getD i []) == some (i + 1)

/-! ### A small JS-regex evaluator

Every regex in the Finding extractor quantifies only single character
classes, so a pattern is a sequence of items: case-insensitive literals,
one-char classes, greedy/lazy class repetitions (with optional capture
group), a two-way alternation, an optional group and the `$` anchor.
Matching follows the JS backtracking order: leftmost start position,
greedy repetitions try longest first, lazy ones shortest first. -/

inductive RItem where
  | lit (c : Char)
  | one (cc : Char → Bool)
  | rep (cc : Char → Bool) (lo : Nat) (hi : Option Nat) (laz : Bool) (cap : Option Nat)
      (acc : Chars)
  | alt2 (l r : List RItem)
  | optG (sub : List RItem)
  | endA

/-- Size of one item, counting nested alternatives (for termination). -/
def riSize : RItem → Nat
  | .lit _ => 1
  | .one _ => 1
  | .rep _ _ _ _ _ _ => 1
  | .alt2 l r => 1 + risSize l + risSize r
  | .optG sub => 1 + risSize sub
  | .endA => 1
where
  /-- Size of an item list. -/
  risSize : List RItem → Nat
    | [] => 0
    | i :: t => riSize i + risSize t

/-- The three capture slots used by the extractor's regexes. -/
structure Caps where
  g1 : Option Chars := none
  g2 : Option Chars := none
  g3 : Option Chars := none
deriving DecidableEq

/-- Record a capture in its slot. -/
def setCap (cap : Option Nat) (v : Chars) (caps : Caps) : Caps :=
  match cap with
  | some 1 => { caps with g1 := some v }
  | some 2 => { caps with g2 := some v }
  | some 3 => { caps with g3 := some v }
  | _ => caps

/-- Match an item sequence against a prefix of `cs`, returning the unconsumed
suffix and the captures of the first match in JS backtracking order: a
repetition consumes one class character at a time (greedy prefers consuming,
lazy prefers stopping), accumulating its capture in `acc`.  Every recursive
call either consumes one input character or strictly shrinks the item
sequence, so `cs.length + riSize.risSize items` drops at each step; the
`fuel` argument is seeded with one more than that bound by `matchRI` below
and therefore never reaches the `0` case on a real run (it exists only to
make the recursion structural, hence computable by the kernel). -/
def matchRIF : Nat → List RItem → Chars → Caps → Option (Chars × Caps)
  | 0, _, _, _ => none
  | _ + 1, [], cs, caps => some (cs, caps)
  | fuel + 1, .lit c :: rest, cs, caps =>
    match cs with
    | [] => none
    | c2 :: cs2 => if jsToLower c2 == jsToLower c then matchRIF fuel rest cs2 caps else none
  | fuel + 1, .one cc :: rest, cs, caps =>
    match cs with
    | [] => none
    | c2 :: cs2 => if cc c2 then matchRIF fuel rest cs2 caps else none
  | fuel + 1, .rep cc (lo + 1) hi laz cap acc :: rest, cs, caps =>
    if hi == some 0 then none
    else
      match cs with
      | [] => none
      | c :: cs2 =>
        if cc c then
          matchRIF fuel (.rep cc lo (hi.map (· - 1)) laz cap (acc ++ [c]) :: rest) cs2 caps
        else none
  | fuel + 1, .rep cc 0 hi laz cap acc :: rest, cs, caps =>
    let exit := fun (_ : Unit) => matchRIF fuel rest cs (setCap cap acc caps)
    let more := fun (_ : Unit) =>
      if hi == some 0 then none
      else
        match cs with
        | [] => none
        | c :: cs2 =>
          if cc c then
            matchRIF fuel (.rep cc 0 (hi.map (· - 1)) laz cap (acc ++ [c]) :: rest) cs2 caps
          else none
    if laz then
      match exit () with
      | some res => some res
      | none => more ()
    else
      match more () with
      | some res => some res
      | none => exit ()
  | fuel + 1, .alt2 l r :: rest, cs, caps =>
    match matchRIF fuel (l ++ rest) cs caps with
    | some res => some res
    | none => matchRIF fuel (r ++ rest) cs caps
  | fuel + 1, .optG sub :: rest, cs, caps =>
    match matchRIF fuel (sub ++ rest) cs caps with
    | some res => some res
    | none => matchRIF fuel rest cs caps
  | fuel + 1, .endA :: rest, cs, caps =>
    if cs.isEmpty then matchRIF fuel rest cs caps else none

/-- The matcher, seeded with always-sufficient fuel. -/
def matchRI (items : List RItem) (cs : Chars) (caps : Caps) : Option (Chars × Caps) :=
  matchRIF (cs.length + riSize.risSize items + 1) items cs caps

/-- A compiled pattern: item sequence plus whether it is `^`-anchored. -/
structure RPattern where
  anchored : Bool
  items : List RItem

/-- A successful `String.prototype.match`: start position, matched length,
captured groups. -/
structure RMatch where
  mstart : Nat
  mlen : Nat
  caps : Caps
deriving DecidableEq

/-- Scan start positions left to right (the JS leftmost-match rule). -/
def searchFrom (items : List RItem) : Chars → Nat → Option RMatch
  | cs, pos =>
    match matchRI items cs {} with
    | some (restCs, caps) => some ⟨pos, cs.length - restCs.length, caps⟩
    | none =>
      match cs with
      | [] => none
      | _ :: t => searchFrom items t (pos + 1)

/-- JS `line.match(re)` for the pattern shapes used here. -/
def jsMatch (p : RPattern) (cs : Chars) : Option RMatch :=
  if p.anchored then
    match matchRI p.items cs {} with
    | some (restCs, caps) => some ⟨0, cs.length - restCs.length, caps⟩
    | none => none
  else searchFrom p.items cs 0

/-- JS `str.replace(re, '')` with a non-global regex: drop the first match. -/
def jsReplaceFirstEmpty (p : RPattern) (cs : Chars) : Chars :=
  match jsMatch p cs with
  | some m => cs.take m.mstart ++ cs.drop (m.mstart + m.mlen)
  | none => cs

/-! Pattern building blocks. -/

/-- A case-insensitive literal run (each char is an `/i` literal). -/
def lits (s : String) : List RItem := s.data.map RItem.lit

/-- `\s*` (greedy). -/
def ws0 : RItem := .rep jsIsSpace 0 none false none []

/-- `\s+` (greedy). -/
def ws1 : RItem := .rep jsIsSpace 1 none false none []

/-- An optional literal such as `-?`, `\*?` or `:?` (greedy). -/
def optC (c : Char) : RItem := .rep (fun x => x == c) 0 (some 1) false none []

/-- `(\d+)` into capture slot `n` (greedy). -/
def capDigits (n : Nat) : RItem := .rep Char.isDigit 1 none false (some n) []

/-- A lazy one-or-more class capture such as `([^\]]+?)` or `(.+?)`. -/
def capLazy (cc : Char → Bool) (n : Nat) : RItem := .rep cc 1 none true (some n) []

/-- JS `.` (anything but a line terminator). -/
def ccDot (c : Char) : Bool :=
  !(c == '\n' || c == '\r' || c == ' ' || c == ' ')

/-- The separator class `[-–—]`. -/
def ccDash (c : Char) : Bool := c == '-' || c == '–' || c == '—'

/-- `\w`. -/
def ccWord (c : Char) : Bool := c.isAlphanum || c == '_'

/-- The common tail `(?:\s*\*\*Fix:\*\*|\s*$)`. -/
def fixTail : RItem := .alt2 (ws0 :: lits "**Fix:**") [ws0, .endA]

/-- `LINE_EXTRACTION_PATTERNS` (src/unnamed/part_015), in source order, each
transliterated item by item from its regex; all are `/i` and unanchored. -/
def LINE_EXTRACTION_PATTERNS : List RPattern :=
  [ -- /\*\s*\*\*Line\s+(\d+):\s*\[([^\]]+?)\]\*\*\s*[-–—]\s*(.+?)(?:\s*\*\*Fix:\*\*|\s*$)/i
    ⟨false, [.lit '*', ws0] ++ lits "**Line" ++
      [ws1, capDigits 1, .lit ':', ws0, .lit '[', capLazy (fun c => !(c == ']')) 2, .lit ']'] ++
      lits "**" ++ [ws0, .one ccDash, ws0, capLazy ccDot 3, fixTail]⟩,
    -- /-\s*\*\*Line\s+(\d+):\s*\[([^\]]+?)\]\*\*\s*[-–—]\s*(.+?)(?:\s*\*\*Fix:\*\*|\s*$)/i
    ⟨false, [.lit '-', ws0] ++ lits "**Line" ++
      [ws1, capDigits 1, .lit ':', ws0, .lit '[', capLazy (fun c => !(c == ']')) 2, .lit ']'] ++
      lits "**" ++ [ws0, .one ccDash, ws0, capLazy ccDot 3, fixTail]⟩,
    -- /\*\*Line\s+(\d+):\s*\[([^\]]+?)\]\*\*\s*[-–—]\s*(.+?)(?:\s*\*\*Fix:\*\*|\s*$)/i
    ⟨false, lits "**Line" ++
      [ws1, capDigits 1, .lit ':', ws0, .lit '[', capLazy (fun c => !(c == ']')) 2, .lit ']'] ++
      lits "**" ++ [ws0, .one ccDash, ws0, capLazy ccDot 3, fixTail]⟩,
    -- /\*\s*\*\*Line\s+(\d+):\s*([^*]+?)\*\*\s*[-–—]\s*(.+?)(?:\s*\*\*Fix:\*\*|\s*$)/i
    ⟨false, [.lit '*', ws0] ++ lits "**Line" ++
      [ws1, capDigits 1, .lit ':', ws0, capLazy (fun c => !(c == '*')) 2] ++
      lits "**" ++ [ws0, .one ccDash, ws0, capLazy ccDot 3, fixTail]⟩,
    -- /[-*]\s*Line\s+(\d+):\s*\[([^\]]+?)\]\s*[-–—]\s*(.+?)(?:\s*\*\*Fix:\*\*|\s*$)/i
    ⟨false, [.one (fun c => c == '-' || c == '*'), ws0] ++ lits "Line" ++
      [ws1, capDigits 1, .lit ':', ws0, .lit '[', capLazy (fun c => !(c == ']')) 2, .lit ']',
        ws0, .one ccDash, ws0, capLazy ccDot 3, fixTail]⟩,
    -- /Line\s+(\d+):\s*\[([^\]]+?)\]\s*[-–—]\s*(.+?)(?:\s*\*\*Fix:\*\*|\s*$)/i
    ⟨false, lits "Line" ++
      [ws1, capDigits 1, .lit ':', ws0, .lit '[', capLazy (fun c => !(c == ']')) 2, .lit ']',
        ws0, .one ccDash, ws0, capLazy ccDot 3, fixTail]⟩,
    -- /Line\s+(\d+):\s*([^-–—\[]+?)[-–—]\s*(.+?)(?:\s*\*\*Fix:\*\*|\s*$)/i
    ⟨false, lits "Line" ++
      [ws1, capDigits 1, .lit ':', ws0, capLazy (fun c => !(ccDash c || c == '[')) 2,
        .one ccDash, ws0, capLazy ccDot 3, fixTail]⟩,
    -- /Line\s+(\d+):\s*(.+?)(?:\s*\(([^)]+)\))?(?:\s*\*\*Fix:\*\*|\s*$)/i
    ⟨false, lits "Line" ++
      [ws1, capDigits 1, .lit ':', ws0, capLazy ccDot 2,
        .optG [ws0, .lit '(', .rep (fun c => !(c == ')')) 1 none false (some 3) [], .lit ')'],
        fixTail]⟩ ]

/-- `/^\s*-?\s*\*?\*?Fix:?\*?\*?\s*/i` of `parseAdditionalInfo`. -/
def fixMarkRe : RPattern :=
  ⟨true, [ws0, optC '-', ws0, optC '*', optC '*'] ++ lits "Fix" ++
    [optC ':', optC '*', optC '*', ws0]⟩

/-- `/^\s*-?\s*\*?\*?Severity:?\*?\*?\s*/i` of `parseAdditionalInfo`. -/
def sevMarkRe : RPattern :=
  ⟨true, [ws0, optC '-', ws0, optC '*', optC '*'] ++ lits "Severity" ++
    [optC ':', optC '*', optC '*', ws0]⟩

/-- `/Severity:?\*?\*?\s*(\w+)/i` of `parseAdditionalInfo`. -/
def sevValueRe : RPattern :=
  ⟨false, lits "Severity" ++ [optC ':', optC '*', optC '*', ws0, .rep ccWord 1 none false (some 1) []]⟩

/-- `/^\s*-\s*\*\*Line\s+\d+/i`, the stop condition of `parseAdditionalInfo`. -/
def lineStopRe : RPattern :=
  ⟨true, [ws0, .lit '-', ws0] ++ lits "**Line" ++ [ws1, .rep Char.isDigit 1 none false none []]⟩

/-! ### Finding extraction (src/unnamed/part_015) -/

/-- `SEVERITY_CONFIG.VALID`. -/
def SEVERITY_VALID : List String := ["critical", "high", "medium", "low"]

/-- `SEVERITY_CONFIG.ORDER` (unknown severities, which JS would map to
`undefined`, never reach this table because every extracted severity is
normalized first; they are given rank 0 here). -/
def severityOrder (s : String) : Nat :=
  if s = "critical" then 4
  else if s = "high" then 3
  else if s = "medium" then 2
  else if s = "low" then 1
  else 0

/-- `normalizeSeverity(severity)`: lower-case and fall back to `'medium'`. -/
def normalizeSeverity (severity : String) : String :=
  let normalized := String.mk (lowerChars severity.data)
  if normalized ∈ SEVERITY_VALID then normalized else "medium"

/-- One entry of `ISSUE_TYPE_CONFIG` (`fixes` keeps the JS insertion order,
with the `'default'` key last). -/
structure IssueTypeEntry where
  key : String
  keywords : List String
  type : String
  icon : String
  fixes : List (String × String)

/-- `ISSUE_TYPE_CONFIG`, in JS object insertion order. -/
def ISSUE_TYPE_CONFIG : List IssueTypeEntry :=
  [ { key := "security"
      keywords := ["security", "vulnerability", "credential", "password", "injection", "unauthorized"]
      type := "Security Issue", icon := "🔒"
      fixes := [("password", "Move sensitive data to environment variables or secure configuration"),
                ("injection", "Use parameterized queries and proper input validation"),
                ("default", "Review security implications and implement appropriate safeguards")] },
    { key := "performance"
      keywords := ["performance", "slow", "inefficient", "optimization", "memory"]
      type := "Performance Issue", icon := "⚡"
      fixes := [("loop", "Consider using more efficient data structures or algorithms"),
                ("query", "Optimize database queries and add proper indexing"),
                ("memory", "Optimize memory usage and avoid unnecessary object creation"),
                ("default", "Profile and optimize the performance bottleneck")] },
    { key := "logic"
      keywords := ["logic", "bug", "null", "exception", "error", "crash", "incomplete update", "dead code"]
      type := "Logic Issue", icon := "🐛"
      fixes := [("null", "Add null checks or use optional chaining"),
                ("exception", "Add proper error handling with try-catch blocks"),
                ("default", "Review the logic and add appropriate safeguards")] },
    { key := "codeQuality"
      keywords := ["code quality", "quality", "style", "naming", "convention", "maintainability", "readability", "unclear"]
      type := "Code Quality", icon := "📝"
      fixes := [("naming", "Use more descriptive and conventional naming"),
                ("method", "Break down into smaller, more focused methods"),
                ("default", "Refactor to improve code clarity and maintainability")] },
    { key := "cleanup"
      keywords := ["unused import", "import", "unused", "dead code"]
      type := "Code Cleanup", icon := "🧹"
      fixes := [("import", "Remove the unused import statement"),
                ("default", "Remove the unused code or provide proper documentation explaining its purpose")] },
    { key := "documentation"
      keywords := ["documentation", "comment", "javadoc", "docs"]
      type := "Documentation", icon := "📚"
      fixes := [("default", "Add comprehensive documentation explaining the purpose and usage")] },
    { key := "businessLogic"
      keywords := ["business logic", "business", "functional"]
      type := "Business Logic", icon := "📊"
      fixes := [("price", "Verify if this business logic change is intentional and document the reasoning"),
                ("default", "Review the business logic change and ensure it meets requirements")] } ]

/-- `matchesKeywords(text, keywords)`. -/
def matchesKeywords (text : String) (keywords : List String) : Bool :=
  keywords.any fun keyword => containsSub (lowerChars text.data) keyword.data

/-- Result `{type, icon, category}` of `analyzeIssueTypeAndIcon`. -/
structure TypeAnalysis where
  type : String
  icon : String
  category : String
deriving DecidableEq

/-- `analyzeIssueTypeAndIcon(issueType, description)`: first config entry whose
keywords hit the stated type or the description; `'Code Review' 💡` default. -/
def analyzeIssueTypeAndIcon (issueType description : String) : TypeAnalysis :=
  let lowerType := String.mk (lowerChars issueType.data)
  let lowerDesc := String.mk (lowerChars description.data)
  match ISSUE_TYPE_CONFIG.find? (fun config =>
      matchesKeywords lowerType config.keywords || matchesKeywords lowerDesc config.keywords) with
  | some config => { type := config.type, icon := config.icon, category := config.key }
  | none => { type := "Code Review", icon := "💡", category := "default" }

/-- `generateFixSuggestion(issueType, description)`. -/
def generateFixSuggestion (issueType description : String) : String :=
  let lowerType := String.mk (lowerChars issueType.data)
  let lowerDesc := String.mk (lowerChars description.data)
  if containsSub lowerType.data "incomplete update".data then
    "Complete the update by including all necessary field modifications or add proper validation"
  else if containsSub lowerType.data "code smell".data && containsSub lowerDesc.data "tempmethod".data then
    "Remove the method if not needed, or rename it to be more descriptive and add proper documentation"
  else
    match ISSUE_TYPE_CONFIG.find? (fun config =>
        matchesKeywords lowerType config.keywords || matchesKeywords lowerDesc config.keywords) with
    | some config =>
      match config.fixes.find? (fun kf => kf.1 ≠ "default" && containsSub lowerDesc.data kf.1.data) with
      | some kf => kf.2
      | none => ((config.fixes.find? (fun kf => kf.1 == "default")).map (·.2)).getD ""
    | none => "Review and address the identified issue"

/-- The `{lineNumber, issueType, description}` result of `extractLineFromText`. -/
structure Extracted where
  lineNumber : Nat
  issueType : String
  description : String
deriving DecidableEq

/-- JS truthiness on an optional capture: `undefined` and `''` are falsy. -/
def truthyCap (o : Option Chars) : Option Chars :=
  match o with
  | some [] => none
  | x => x

/-- `extractLineFromText(line, patterns)`: first matching pattern wins. -/
def extractLineFromText (line : Chars) (patterns : List RPattern) : Option Extracted :=
  patterns.findSome? fun p =>
    (jsMatch p line).map fun m =>
      { lineNumber := digitsToNat (m.caps.g1.getD [])
        issueType :=
          match truthyCap m.caps.g2 with
          | some g => String.mk (trimChars g)
          | none => "Issue"
        description :=
          match truthyCap m.caps.g3 with
          | some g => String.mk (trimChars g)
          | none =>
            match m.caps.g2 with
            | some g =>
              let t := trimChars g
              if t.isEmpty then "Issue identified" else String.mk t
            | none => "Issue identified" }

/-- The `for (let j = startIndex + 1; j < endIndex; j++)` scan of
`parseAdditionalInfo`, threading the `(severity, fix)` state; `remaining`
counts the iterations left (`endIndex - j`), making the loop structural. -/
def parseAdditionalInfoLoop (analysisLines : List Chars) :
    Nat → Nat → String → String → String × String
  | 0, _, severity, fix => (severity, fix)
  | remaining + 1, j, severity, fix =>
    let nextLine := trimChars (analysisLines.getD j [])
    if nextLine.isEmpty then
      parseAdditionalInfoLoop analysisLines remaining (j + 1) severity fix
    else if (jsMatch fixMarkRe nextLine).isSome then
      parseAdditionalInfoLoop analysisLines remaining (j + 1) severity
        (String.mk (trimChars (jsReplaceFirstEmpty fixMarkRe nextLine)))
    else if (jsMatch sevMarkRe nextLine).isSome then
      match jsMatch sevValueRe nextLine with
      | some m =>
        parseAdditionalInfoLoop analysisLines remaining (j + 1)
          (normalizeSeverity (String.mk (m.caps.g1.getD []))) fix
      | none => parseAdditionalInfoLoop analysisLines remaining (j + 1) severity fix
    else if (jsMatch lineStopRe nextLine).isSome then (severity, fix)
    else parseAdditionalInfoLoop analysisLines remaining (j + 1) severity fix

/-- `parseAdditionalInfo(lines, startIndex, maxLookAhead = 10)`: scan the next
lines (`j` from `startIndex + 1` up to
`endIndex = min(startIndex + 10, lines.length)`) for `Fix:` and `Severity:`
markers, stopping at the next line issue. -/
def parseAdditionalInfo (analysisLines : List Chars) (startIndex : Nat) : String × String :=
  parseAdditionalInfoLoop analysisLines
    (min (startIndex + 10) analysisLines.length - (startIndex + 1))
    (startIndex + 1) "medium" ""

/-- An extracted issue (the fields pushed by the extraction functions). -/
structure Issue where
  line : Nat
  type : String
  icon : String
  severity : String
  problem : String
  fix : String
  originalType : String
deriving DecidableEq

/-- The per-line loop body of `extractLineSpecificIssuesLegacy`, before
deduplication and sorting. -/
def legacyRawIssues (aiAnalysis : String) : List Issue :=
  let analysisLines := linesOf aiAnalysis
  analysisLines.enum.filterMap fun (i, rawLine) =>
    let line := trimChars rawLine
    if line.isEmpty || line.length < 10 then none
    else
      match extractLineFromText line LINE_EXTRACTION_PATTERNS with
      | none => none
      | some extracted =>
        if extracted.lineNumber = 0 then none
        else
          let additionalInfo := parseAdditionalInfo analysisLines i
          let issueAnalysis := analyzeIssueTypeAndIcon extracted.issueType extracted.description
          some { line := extracted.lineNumber
                 type := issueAnalysis.type
                 icon := issueAnalysis.icon
                 severity := additionalInfo.1
                 problem := extracted.description
                 fix :=
                   if additionalInfo.2 = "" then
                     generateFixSuggestion extracted.issueType extracted.description
                   else additionalInfo.2
                 originalType := extracted.issueType }

/-- The `filter((issue, index, self) => index === self.findIndex(i =>
i.line === issue.line && i.problem === issue.problem))` deduplication:
an element is kept at `index` exactly when the first index holding its
`(line, problem)` key is `index` itself. -/
def dedupByLineProblem (issues : List Issue) : List Issue :=
  (List.range issues.length).filterMap fun index =>
    match issues.get? index with
    | some issue =>
      if jsFindIndex (fun i => i.line == issue.line && i.problem == issue.problem) issues
          == some index
      then some issue else none
    | none => none

/-- The comparator `(a, b) => a.line - b.line` as an order: `a` before `b`. -/
def lineLe (a b : Issue) : Prop := a.line ≤ b.line

instance : DecidableRel lineLe := fun a b => Nat.decLe a.line b.line

/-- The comparator `(a, b) => ORDER[b.severity] - ORDER[a.severity]` as an
order: `a` before `b` when its severity rank is at least as high. -/
def sevGe (a b : Issue) : Prop := severityOrder b.severity ≤ severityOrder a.severity

instance : DecidableRel sevGe := fun a b =>
  Nat.decLe (severityOrder b.severity) (severityOrder a.severity)

instance : IsTotal Issue lineLe := ⟨fun a b => Nat.le_total a.line b.line⟩

instance : IsTrans Issue lineLe := ⟨fun _ _ _ hab hbc => Nat.le_trans hab hbc⟩

instance : IsTotal Issue sevGe :=
  ⟨fun a b => Nat.le_total (severityOrder b.severity) (severityOrder a.severity)⟩

instance : IsTrans Issue sevGe := ⟨fun _ _ _ hab hbc => Nat.le_trans hbc hab⟩

/-- The delivered ordering the spec asks for: severity rank non-increasing,
ties broken by ascending line number. -/
def sevLineLex (a b : Issue) : Prop :=
  severityOrder b.severity < severityOrder a.severity ∨
    (severityOrder a.severity = severityOrder b.severity ∧ a.line ≤ b.line)

instance : DecidableRel sevLineLex := fun a b => by
  unfold sevLineLex
  infer_instance

/-- `.sort((a, b) => a.line - b.line)`: JS sort is stable, so this is the
stable insertion sort by ascending line. -/
def sortByLine (issues : List Issue) : List Issue :=
  issues.insertionSort lineLe

/-- `extractLineSpecificIssuesLegacy(aiAnalysis)`. -/
def extractLineSpecificIssuesLegacy (aiAnalysis : String) : List Issue :=
  if aiAnalysis = "" then []
  else sortByLine (dedupByLineProblem (legacyRawIssues aiAnalysis))

/-- One entry of `keyFindings.lineSpecificIssues` (absent JS string fields are
modelled as `""`, which every use coalesces away). -/
structure InputIssue where
  line : Nat
  type : String
  severity : String
  description : String
deriving DecidableEq

/-- `processIssueFromKeyFindings(issue)`. -/
def processIssueFromKeyFindings (issue : InputIssue) : Issue :=
  let issueAnalysis := analyzeIssueTypeAndIcon issue.type issue.description
  { line := issue.line
    type := issueAnalysis.type
    icon := issueAnalysis.icon
    severity := normalizeSeverity issue.severity
    problem := if issue.description = "" then "Issue identified" else issue.description
    fix := generateFixSuggestion issue.type issue.description
    originalType := issue.type }

/-- The `issues` array built from pre-extracted `lineSpecificIssues`. -/
def rawIssuesFromKeyFindings (lineSpecificIssues : List InputIssue) : List Issue :=
  lineSpecificIssues.map processIssueFromKeyFindings

/-- `extractLineSpecificIssuesFromKeyFindings(keyFindings, aiAnalysisText)`
(part_015): use the pre-extracted issues, fall back to legacy text parsing
when there are none, then deduplicate by `(line, problem)` and sort by line. -/
def extractLineSpecificIssuesFromKeyFindings (lineSpecificIssues : List InputIssue)
    (aiAnalysisText : String) : List Issue :=
  let issues :=
    if lineSpecificIssues.length > 0 then rawIssuesFromKeyFindings lineSpecificIssues else []
  if issues.isEmpty && aiAnalysisText ≠ "" then extractLineSpecificIssuesLegacy aiAnalysisText
  else sortByLine (dedupByLineProblem issues)

/-- `MAX_COMMENTS`. -/
def MAX_COMMENTS : Nat := 10

/-- `prioritizeIssues(issues)`: stable sort by severity rank descending
(JS comparator `ORDER[b.severity] - ORDER[a.severity]`), then keep the
first `MAX_COMMENTS`. -/
def prioritizeIssues (issues : List Issue) : List Issue :=
  (issues.insertionSort sevGe).take MAX_COMMENTS

/-- The extraction step of `postLineSpecificIssues`: enhanced extraction when
`keyFindings` is present, legacy extraction otherwise. -/
def lineIssuesFor (keyFindings : Option (List InputIssue)) (aiAnalysis : String) : List Issue :=
  match keyFindings with
  | some kf => extractLineSpecificIssuesFromKeyFindings kf aiAnalysis
  | none => extractLineSpecificIssuesLegacy aiAnalysis

/-- The delivered comment set of `postLineSpecificIssues`: the extracted
issues, prioritized and capped only when more than `MAX_COMMENTS` were found. -/
def issuesToPost (keyFindings : Option (List InputIssue)) (aiAnalysis : String) : List Issue :=
  let lineIssues := lineIssuesFor keyFindings aiAnalysis
  if lineIssues.length > MAX_COMMENTS then prioritizeIssues lineIssues else lineIssues

/-! ### Index-aligned line diff (`getChangedLines`, src/unnamed/part_015 and
src/utils/codecommitComments.js) -/

/-- One record pushed onto `changedLines`. -/
structure ChangedLine where
  lineNumber : Nat
  beforeLine : String
  afterLine : String
  changeType : String
deriving DecidableEq

/-- `getChangedLines(beforeContent, afterContent)`: index-aligned comparison of
the two line arrays; a missing line is defaulted to `''` by `lines[i] || ''`,
and the classification tests `!beforeLine` / `!afterLine` are JS falsiness
(true for a missing *or empty* line). -/
def getChangedLines (beforeContent afterContent : String) : List ChangedLine :=
  if beforeContent = "" || afterContent = "" then []
  else
    let beforeLines := linesOf beforeContent
    let afterLines := linesOf afterContent
    let maxLines := max beforeLines.length afterLines.length
    (List.range maxLines).filterMap fun i =>
      let beforeLine := beforeLines.getD i []
      let afterLine := afterLines.getD i []
      if beforeLine ≠ afterLine then
        some { lineNumber := i + 1
               beforeLine := String.mk beforeLine
               afterLine := String.mk afterLine
               changeType :=
                 if beforeLine.isEmpty then "added"
                 else if afterLine.isEmpty then "deleted"
                 else "modified" }
      else none

/-! ### Concrete instances used to exercise the theorems -/

/-- Fifteen pre-extracted findings with mixed severities (for the
more-than-ten-findings scenario). -/
def kf15 : List InputIssue :=
  [⟨1, "style", "low", "issue a"⟩, ⟨2, "security", "critical", "issue b"⟩,
   ⟨3, "bug", "high", "issue c"⟩, ⟨4, "style", "medium", "issue d"⟩,
   ⟨5, "bug", "low", "issue e"⟩, ⟨6, "security", "critical", "issue f"⟩,
   ⟨7, "style", "medium", "issue g"⟩, ⟨8, "bug", "high", "issue h"⟩,
   ⟨9, "style", "low", "issue i"⟩, ⟨10, "security", "high", "issue j"⟩,
   ⟨11, "style", "medium", "issue k"⟩, ⟨12, "bug", "critical", "issue l"⟩,
   ⟨13, "style", "low", "issue m"⟩, ⟨14, "bug", "medium", "issue n"⟩,
   ⟨15, "security", "high", "issue o"⟩]

/-- Two pages of differences: one added, one deleted, then one modified file. -/
def pagesW : List DiffPage :=
  [⟨[⟨none, some ⟨"new.js", "b1"⟩, "A"⟩, ⟨some ⟨"old.js", "b0"⟩, none, "D"⟩], some "tok"⟩,
   ⟨[⟨some ⟨"mod.js", "b2"⟩, some ⟨"mod.js", "b3"⟩, "M"⟩], none⟩]

/-!
## Theorems

Generic facts about the JS helpers first, then one theorem per claim
(with its witness or counterexample).
-/

theorem jsFindIndex_eq_none_iff (p : α → Bool) (l : List α) :
    jsFindIndex p l = none ↔ ∀ x ∈ l, p x = false := by
  induction l with
  | nil => simp [jsFindIndex]
  | cons x t ih =>
    by_cases hx : p x
    · simp [jsFindIndex, hx]
    · simp only [jsFindIndex, hx, Bool.false_eq_true, if_false, Option.map_eq_none', ih,
        List.mem_cons]
      constructor
      · intro h y hy
        rcases hy with rfl | hy
        · exact Bool.eq_false_iff.mpr hx
        · exact h y hy
      · intro h y hy
        exact h y (Or.inr hy)

theorem jsFindIndex_some_spec (p : α → Bool) :
    ∀ (l : List α) (i : Nat), jsFindIndex p l = some i →
      ∃ x, l.get? i = some x ∧ p x = true := by
  intro l
  induction l with
  | nil => intro i h; simp [jsFindIndex] at h
  | cons x t ih =>
    intro i h
    by_cases hx : p x
    · simp only [jsFindIndex, hx, if_true, Option.some.injEq] at h
      exact ⟨x, by rw [← h]; rfl, hx⟩
    · simp only [jsFindIndex, hx, Bool.false_eq_true, if_false, Option.map_eq_some'] at h
      obtain ⟨j, hj, hi⟩ := h
      obtain ⟨y, hy, hpy⟩ := ih j hj
      refine ⟨y, ?_, hpy⟩
      rw [← hi]
      simpa using hy

theorem jsFindIndex_isSome_of_mem (p : α → Bool) {l : List α} {x : α}
    (hx : x ∈ l) (hp : p x = true) : (jsFindIndex p l).isSome := by
  induction l with
  | nil => cases hx
  | cons y t ih =>
    by_cases hy : p y
    · simp [jsFindIndex, hy]
    · rcases List.mem_cons.mp hx with rfl | hxt
      · exact absurd hp (by simp [hy])
      · simp only [jsFindIndex, hy, Bool.false_eq_true, if_false]
        cases h : jsFindIndex p t with
        | none => rw [h] at ih; exact absurd (ih hxt) (by simp)
        | some j => simp

theorem splitCh_ne_nil (sep : Char) : ∀ cs : Chars, splitCh sep cs ≠ [] := by
  intro cs
  induction cs with
  | nil => simp [splitCh]
  | cons c t ih =>
    simp only [splitCh]
    by_cases hc : c == sep
    · simp [hc]
    · simp only [hc]
      cases h : splitCh sep t with
      | nil => simp
      | cons l ls => simp

/-! Key-set lemmas for the vector-store upsert (claim C1). -/

theorem any_key_iff_mem_map (store : List (String × VectorRecord)) (k : String) :
    store.any (fun p => p.1 == k) = true ↔ k ∈ store.map Prod.fst := by
  rw [List.any_eq_true]
  constructor
  · rintro ⟨p, hp, hpk⟩
    have : p.1 = k := by simpa using hpk
    exact this ▸ List.mem_map_of_mem Prod.fst hp
  · intro hk
    obtain ⟨p, hp, rfl⟩ := List.mem_map.mp hk
    exact ⟨p, hp, by simp⟩

theorem upsertOne_keys_of_mem (store : List (String × VectorRecord)) (v : VectorRecord)
    (h : v.id ∈ store.map Prod.fst) :
    (upsertOne store v).map Prod.fst = store.map Prod.fst := by
  rw [upsertOne, if_pos ((any_key_iff_mem_map store v.id).mpr h)]
  rw [List.map_map]
  apply List.map_congr_left
  intro p _
  by_cases hp : p.1 = v.id
  · simp [Function.comp, hp]
  · simp [Function.comp, hp]

theorem upsertOne_keys_of_not_mem (store : List (String × VectorRecord)) (v : VectorRecord)
    (h : v.id ∉ store.map Prod.fst) :
    (upsertOne store v).map Prod.fst = store.map Prod.fst ++ [v.id] := by
  rw [upsertOne, if_neg]
  · simp
  · intro hc
    exact h ((any_key_iff_mem_map store v.id).mp hc)

theorem mem_upsertOne_keys (store : List (String × VectorRecord)) (v : VectorRecord) :
    v.id ∈ (upsertOne store v).map Prod.fst := by
  by_cases h : v.id ∈ store.map Prod.fst
  · rw [upsertOne_keys_of_mem store v h]; exact h
  · rw [upsertOne_keys_of_not_mem store v h]; simp

theorem upsertOne_keys_mono (store : List (String × VectorRecord)) (v : VectorRecord)
    {k : String} (h : k ∈ store.map Prod.fst) : k ∈ (upsertOne store v).map Prod.fst := by
  by_cases hm : v.id ∈ store.map Prod.fst
  · rwa [upsertOne_keys_of_mem store v hm]
  · rw [upsertOne_keys_of_not_mem store v hm]; exact List.mem_append_left _ h

theorem upsertVectors_keys_mono (vs : List VectorRecord) :
    ∀ (store : List (String × VectorRecord)) {k : String},
      k ∈ store.map Prod.fst → k ∈ (upsertVectors store vs).map Prod.fst := by
  induction vs with
  | nil => intro store k h; exact h
  | cons v t ih =>
    intro store k h
    exact ih (upsertOne store v) (upsertOne_keys_mono store v h)

theorem upsertVectors_id_mem (vs : List VectorRecord) :
    ∀ (store : List (String × VectorRecord)) (v : VectorRecord), v ∈ vs →
      v.id ∈ (upsertVectors store vs).map Prod.fst := by
  induction vs with
  | nil => intro _ v h; cases h
  | cons w t ih =>
    intro store v hv
    rcases List.mem_cons.mp hv with rfl | hvt
    · exact upsertVectors_keys_mono t (upsertOne store v) (mem_upsertOne_keys store v)
    · exact ih (upsertOne store w) v hvt

theorem upsertVectors_keys_of_all_mem (vs : List VectorRecord) :
    ∀ (store : List (String × VectorRecord)),
      (∀ v ∈ vs, v.id ∈ store.map Prod.fst) →
      (upsertVectors store vs).map Prod.fst = store.map Prod.fst := by
  induction vs with
  | nil => intro store _; rfl
  | cons v t ih =>
    intro store h
    have hv : v.id ∈ store.map Prod.fst := h v (List.mem_cons_self v t)
    have hkeys := upsertOne_keys_of_mem store v hv
    calc (upsertVectors (upsertOne store v) t).map Prod.fst
        = (upsertOne store v).map Prod.fst :=
          ih (upsertOne store v) fun w hw => by rw [hkeys]; exact h w (List.mem_cons_of_mem v hw)
      _ = store.map Prod.fst := hkeys

theorem upsertVectors_keys_nodup (vs : List VectorRecord) :
    ∀ (store : List (String × VectorRecord)),
      (store.map Prod.fst).Nodup → ((upsertVectors store vs).map Prod.fst).Nodup := by
  induction vs with
  | nil => intro _ h; exact h
  | cons v t ih =>
    intro store h
    apply ih
    by_cases hm : v.id ∈ store.map Prod.fst
    · rwa [upsertOne_keys_of_mem store v hm]
    · rw [upsertOne_keys_of_not_mem store v hm]
      exact List.Nodup.append h (List.nodup_singleton _) (by simpa using hm)

/-- C1 (amended): in `CodebaseEmbeddingService` (part_000) chunk ids are the
deterministic sanitized function `createChunkId` of
`(namespace, filePath, chunkIndex, contentHash)`, so re-upserting the vectors
of an unchanged file adds no new point to the store: the key set after a
second pass equals the key set after the first, and the store never
accumulates duplicate ids.  (The claim's further assertion about
`createEmbeddingsForRepo` in part_002 is refuted by the counterexample:
there ids come from `uuidv4()`.) -/
theorem reindex_unchanged_zero_net_writes
    (splitter : String → List String) (md5 : String → String)
    (nspace filePath content : String) (store : List (String × VectorRecord)) :
    (upsertVectors (upsertVectors store (processFileVectors splitter md5 nspace filePath content))
        (processFileVectors splitter md5 nspace filePath content)).map Prod.fst =
      (upsertVectors store (processFileVectors splitter md5 nspace filePath content)).map
        Prod.fst
    ∧ ((store.map Prod.fst).Nodup →
        ((upsertVectors
            (upsertVectors store (processFileVectors splitter md5 nspace filePath content))
            (processFileVectors splitter md5 nspace filePath content)).map Prod.fst).Nodup) := by
  constructor
  · apply upsertVectors_keys_of_all_mem
    intro v hv
    exact upsertVectors_id_mem _ store v hv
  · intro h
    exact upsertVectors_keys_nodup _ _ (upsertVectors_keys_nodup _ _ h)

/-- Exercises `reindex_unchanged_zero_net_writes` on a concrete file whose
splitter yields two chunks, discharging the `Nodup` hypothesis. -/
theorem reindex_unchanged_zero_net_writes_witness :
    (upsertVectors
        (upsertVectors []
          (processFileVectors (fun c => [c, c ++ "!"]) (fun s => s) "ns" "a.js" "hello"))
        (processFileVectors (fun c => [c, c ++ "!"]) (fun s => s) "ns" "a.js" "hello")).map
      Prod.fst =
      (upsertVectors []
          (processFileVectors (fun c => [c, c ++ "!"]) (fun s => s) "ns" "a.js" "hello")).map
        Prod.fst
    ∧ ((upsertVectors
          (upsertVectors []
            (processFileVectors (fun c => [c, c ++ "!"]) (fun s => s) "ns" "a.js" "hello"))
          (processFileVectors (fun c => [c, c ++ "!"]) (fun s => s) "ns" "a.js" "hello")).map
        Prod.fst).Nodup := by
  have h := reindex_unchanged_zero_net_writes (fun c => [c, c ++ "!"]) (fun s => s) "ns" "a.js"
    "hello" []
  exact ⟨h.1, h.2 (by decide)⟩

/-- C1 counterexample: the cited `createEmbeddingsForRepo` (part_002) draws
every chunk id from `uuidv4()`, so two indexing passes over the identical
unchanged file (two different draws of the random stream) produce different
chunk-id sets — the ids are not a function of
`(namespace, filePath, chunkIndex, contentHash)` and the second pass rewrites
rather than no-ops. -/
theorem repo_chunk_ids_not_deterministic :
    repoDocumentIds (fun c => [c]) (fun k => "a" ++ toString k) [⟨"f.js", "hello"⟩] ≠
      repoDocumentIds (fun c => [c]) (fun k => "b" ++ toString k) [⟨"f.js", "hello"⟩] := by
  decide

/-! Classifier lemmas (claim C5). -/

theorem analysisFileOf_changeType {d : DiffRecord} {f : AnalysisFile}
    (h : analysisFileOf d = some f) :
    f.changeType = d.changeType ∧ d.changeType ≠ "D" ∧ diffPath d = some f.filename := by
  unfold analysisFileOf at h
  by_cases hD : d.changeType = "D"
  · simp [hD] at h
  · rw [if_pos hD] at h
    cases hp : diffPath d with
    | none => rw [hp] at h; cases h
    | some fp =>
      rw [hp] at h
      dsimp only at h
      by_cases hfp : fp = ""
      · simp [hfp] at h
      · rw [if_pos hfp] at h
        cases h
        exact ⟨rfl, hD, rfl⟩

theorem paginate_all_pages :
    ∀ pages : List DiffPage,
    (∀ i, i < pages.length - 1 → ((pages.getD i default).nextToken).isSome) →
    paginateDifferences pages = (pages.map (·.differences)).flatten := by
  intro pages
  induction pages with
  | nil => intro _; rfl
  | cons p rest ih =>
    intro h
    simp only [paginateDifferences, List.map_cons, List.flatten_cons]
    cases rest with
    | nil =>
      cases hp : p.nextToken.isSome <;> simp [hp, paginateDifferences]
    | cons q rest2 =>
      have h0 : p.nextToken.isSome := h 0 (by simp only [List.length_cons]; omega)
      rw [if_pos h0]
      rw [ih ?_]
      intro i hi
      exact h (i + 1) (by simp only [List.length_cons] at hi ⊢; omega)

/-- C5: the classifier paginates until the token chain ends (when every
non-final page carries a token, every page's differences are collected);
every collected path is classified with exactly one change type whenever the
API reports each path once; and `"D"` records are excluded from the analysis
queue, so a deleted file's path never reaches downstream analysis. -/
theorem classification_complete_deleted_excluded (pages : List DiffPage) :
    (∀ f ∈ collectChangedFiles pages, f.changeType ≠ "D")
    ∧ ((∀ i, i < pages.length - 1 → ((pages.getD i default).nextToken).isSome) →
        paginateDifferences pages = (pages.map (·.differences)).flatten)
    ∧ (∀ d ∈ paginateDifferences pages, d.changeType = "D" →
        (∀ d2 ∈ paginateDifferences pages, diffPath d2 = diffPath d → d2 = d) →
        ∀ f ∈ collectChangedFiles pages, some f.filename ≠ diffPath d)
    ∧ (∀ pth : String, (∃ d ∈ paginateDifferences pages, diffPath d = some pth) →
        (∀ d1 ∈ paginateDifferences pages, ∀ d2 ∈ paginateDifferences pages,
          diffPath d1 = some pth → diffPath d2 = some pth → d1 = d2) →
        ∃! t : String, ∃ d ∈ paginateDifferences pages,
          diffPath d = some pth ∧ d.changeType = t) := by
  refine ⟨?_, paginate_all_pages pages, ?_, ?_⟩
  · intro f hf
    obtain ⟨d, _, hd⟩ := List.mem_filterMap.mp hf
    exact ((analysisFileOf_changeType hd).1 ▸ (analysisFileOf_changeType hd).2.1)
  · intro d _ hD huniq f hf hpath
    obtain ⟨d2, hd2mem, hd2⟩ := List.mem_filterMap.mp hf
    obtain ⟨_, hne, hp2⟩ := analysisFileOf_changeType hd2
    have : d2 = d := huniq d2 hd2mem (by rw [hp2, hpath])
    exact hne (this ▸ hD)
  · rintro pth ⟨d, hd, hdp⟩ huniq
    refine ⟨d.changeType, ⟨d, hd, hdp, rfl⟩, ?_⟩
    rintro t ⟨d2, hd2, hd2p, rfl⟩
    rw [huniq d2 hd2 d hd hd2p hdp]

/-- Exercises `classification_complete_deleted_excluded` on two concrete
pages, discharging the pagination and uniqueness hypotheses. -/
theorem classification_complete_deleted_excluded_witness :
    paginateDifferences pagesW = (pagesW.map (·.differences)).flatten
    ∧ (∀ f ∈ collectChangedFiles pagesW,
        some f.filename ≠ diffPath ⟨some ⟨"old.js", "b0"⟩, none, "D"⟩) := by
  have h := classification_complete_deleted_excluded pagesW
  refine ⟨h.2.1 (by decide), ?_⟩
  exact h.2.2.1 ⟨some ⟨"old.js", "b0"⟩, none, "D"⟩ (by decide) (by decide) (by decide)

/-! Context-need decision (claim C7). -/

theorem shouldUseContext_iff (changes : SpecificChanges) (filename : String) :
    shouldUseContext changes filename = true ↔
      (changes.addedImports ≠ [] ∨ changes.addedFunctions ≠ [] ∨ changes.addedClasses ≠ [] ∨
        changes.removedFunctions ≠ [] ∨ changes.removedClasses ≠ [] ∨
        isArchitecturallyImportant filename (fileExtensionOf filename) = true ∨
        hasPublicApiChanges changes (fileExtensionOf filename) = true) := by
  simp only [shouldUseContext, Bool.or_eq_true, decide_eq_true_eq, List.length_pos,
    ne_eq, or_assoc]

/-- C7: for a Modified file, `processFileContent` performs cross-file context
retrieval exactly when one of the signals fires — a new import, a new or
removed function, a new or removed class, an architecturally important path,
or a public-API change; with no signal the fixed diff-only context record is
used and the retriever `fetch` is never consulted. -/
theorem context_fetched_iff_signal (fetch : String → ContextResult)
    (changes : SpecificChanges) (filename : String) :
    modifiedFileContext fetch changes filename =
      if changes.addedImports ≠ [] ∨ changes.addedFunctions ≠ [] ∨ changes.addedClasses ≠ [] ∨
          changes.removedFunctions ≠ [] ∨ changes.removedClasses ≠ [] ∨
          isArchitecturallyImportant filename (fileExtensionOf filename) = true ∨
          hasPublicApiChanges changes (fileExtensionOf filename) = true
      then fetch filename
      else { hasContext := false, contextChunks := [], relatedFiles := [],
             summary := "Context skipped - diff-focused analysis." } := by
  by_cases h : shouldUseContext changes filename = true
  · rw [modifiedFileContext, if_pos h, if_pos ((shouldUseContext_iff changes filename).mp h)]
  · rw [modifiedFileContext, if_neg (fun hc => h hc),
      if_neg (fun hc => h ((shouldUseContext_iff changes filename).mpr hc))]

/-! Context-retrieval filtering (claim C8). -/

theorem chunksByFile_keys_nodup :
    ∀ chunks : List ContextChunk, ((chunksByFile chunks).map Prod.fst).Nodup := by
  intro chunks
  induction chunks with
  | nil => simp [chunksByFile]
  | cons c t ih =>
    simp only [chunksByFile]
    by_cases hmem : (chunksByFile t).any (fun g => g.1 == c.source)
    · rw [if_pos hmem, List.map_map]
      have : ((fun g => Prod.fst (if g.1 == c.source then (g.1, c :: g.2) else g)) :
          String × List ContextChunk → String) = Prod.fst := by
        funext g
        by_cases hg : g.1 = c.source <;> simp [hg]
      rw [show (Prod.fst ∘ fun g : String × List ContextChunk =>
          if g.1 == c.source then (g.1, c :: g.2) else g) =
          (fun g : String × List ContextChunk =>
            Prod.fst (if g.1 == c.source then (g.1, c :: g.2) else g)) from rfl]
      rw [this]
      exact ih
    · rw [if_neg hmem, List.map_cons]
      refine List.Nodup.cons ?_ ih
      intro hc
      obtain ⟨g, hg, hgk⟩ := List.mem_map.mp hc
      apply hmem
      exact List.any_eq_true.mpr ⟨g, hg, by simp [hgk]⟩

theorem sortedPromptFiles_le_five (context : ContextResult) :
    (sortedPromptFiles context).length ≤ 5 := by
  rw [sortedPromptFiles]
  exact List.length_take_le 5 _

theorem sortedPromptFiles_nodup (context : ContextResult) :
    ((sortedPromptFiles context).map Prod.fst).Nodup := by
  have hperm :
      List.Perm
        (((chunksByFile context.contextChunks).insertionSort
          (fun a b => maxSimilarity b.2 ≤ maxSimilarity a.2)).map Prod.fst)
        ((chunksByFile context.contextChunks).map Prod.fst) :=
    (List.perm_insertionSort _ _).map Prod.fst
  have hnodup := (hperm.nodup_iff).mpr (chunksByFile_keys_nodup context.contextChunks)
  have hsub :
      List.Sublist ((sortedPromptFiles context).map Prod.fst)
        (((chunksByFile context.contextChunks).insertionSort
          (fun a b => maxSimilarity b.2 ≤ maxSimilarity a.2)).map Prod.fst) :=
    (List.take_sublist 5 _).map Prod.fst
  exact hnodup.sublist hsub

/-- C8: every context chunk returned by `getRelevantContext` comes from the
similarity search on the single queried repository+branch collection, has
similarity strictly above the 0.3 threshold and never originates from the
changed file itself; and `formatContextForPrompt` includes at most 5 distinct
source files. -/
theorem retrieved_context_is_filtered (search : String → List SearchHit)
    (repositoryName branchName filename : String) :
    (∀ ch ∈ (getRelevantContext search repositoryName branchName filename).contextChunks,
        ch.similarity > 3/10 ∧ ch.source ≠ filename ∧
        ch ∈ (search (collectionNameFor repositoryName branchName)).map chunkOfHit)
    ∧ (sortedPromptFiles (getRelevantContext search repositoryName branchName filename)).length
        ≤ 5
    ∧ ((sortedPromptFiles (getRelevantContext search repositoryName branchName
        filename)).map Prod.fst).Nodup := by
  refine ⟨?_, sortedPromptFiles_le_five _, sortedPromptFiles_nodup _⟩
  intro ch hch
  unfold getRelevantContext relevantContextFromResults at hch
  by_cases hE : (search (collectionNameFor repositoryName branchName)).isEmpty
  · rw [if_pos hE] at hch
    simp at hch
  · rw [if_neg hE] at hch
    simp only at hch
    obtain ⟨hmem, hpred⟩ := List.mem_filter.mp hch
    have hp := hpred
    simp only [Bool.and_eq_true, decide_eq_true_eq, ne_eq] at hp
    have hthr : scoreThreshold = 3/10 := by
      rw [scoreThreshold, Rat.mk'_eq_divInt, Rat.divInt_eq_div]
      norm_num
    exact ⟨hthr ▸ hp.2, hp.1, hmem⟩

/-- Exercises `retrieved_context_is_filtered` on a two-hit search result:
the chunk from another file at similarity 1/2 survives the filter. -/
theorem retrieved_context_is_filtered_witness :
    (chunkOfHit ⟨"code a", "other.js", 0, "js", "r", "b",
        ⟨1, 2, by norm_num, by norm_num⟩⟩).similarity > 3/10
    ∧ (chunkOfHit ⟨"code a", "other.js", 0, "js", "r", "b",
        ⟨1, 2, by norm_num, by norm_num⟩⟩).source ≠ "changed.js" := by
  have h := retrieved_context_is_filtered
    (fun _ => [⟨"code a", "other.js", 0, "js", "r", "b", ⟨1, 2, by norm_num, by norm_num⟩⟩,
               ⟨"code b", "changed.js", 1, "js", "r", "b", ⟨2, 5, by norm_num, by norm_num⟩⟩])
    "repo" "main" "changed.js"
  have h1 := h.1 (chunkOfHit ⟨"code a", "other.js", 0, "js", "r", "b",
    ⟨1, 2, by norm_num, by norm_num⟩⟩) (by decide)
  exact ⟨h1.1, h1.2.1⟩

/-! Label-reconciliation lemmas (claims C2 and C10). -/

theorem jsFindIndex_labelled (labelFn : Chars → Option Nat) :
    ∀ (lines : List Chars) (base k : Nat),
      (∀ i, i < lines.length → labelFn (lines.getD i []) = some (base + i)) →
      jsFindIndex (fun l => labelFn l == some k) lines =
        if base ≤ k ∧ k < base + lines.length then some (k - base) else none := by
  intro lines
  induction lines with
  | nil =>
    intro base k _
    rw [if_neg (by simp only [List.length_nil]; omega)]
    rfl
  | cons x t ih =>
    intro base k h
    have hx : labelFn x = some base := by
      have h0 := h 0 (by simp)
      simpa using h0
    by_cases hk : base = k
    · subst hk
      simp only [jsFindIndex]
      rw [if_pos (by simp [hx])]
      rw [if_pos (by simp only [List.length_cons]; omega)]
      simp
    · simp only [jsFindIndex]
      rw [if_neg (by simp [hx, hk])]
      have hshift : ∀ i, i < t.length → labelFn (t.getD i []) = some (base + 1 + i) := by
        intro i hi
        have hh := h (i + 1) (by simp only [List.length_cons]; omega)
        have hg : (x :: t).getD (i + 1) [] = t.getD i [] := rfl
        rw [hg] at hh
        rw [hh]
        have : base + (i + 1) = base + 1 + i := by omega
        rw [this]
      rw [ih (base + 1) k hshift]
      by_cases hin : base + 1 ≤ k ∧ k < base + 1 + t.length
      · rw [if_pos hin, if_pos (by simp only [List.length_cons]; omega)]
        simp only [Option.map_some']
        have : k - (base + 1) + 1 = k - base := by omega
        rw [this]
      · rw [if_neg hin, if_neg (by simp only [List.length_cons]; omega)]
        rfl

theorem labelled_getD (labelFn : Chars → Option Nat) (lines : List Chars)
    (hlab : labelledFromOne labelFn lines = true) :
    ∀ i, i < lines.length → labelFn (lines.getD i []) = some (1 + i) := by
  intro i hi
  rw [labelledFromOne, List.all_eq_true] at hlab
  have := hlab i (List.mem_range.mpr hi)
  have heq : labelFn (lines.getD i []) = some (i + 1) := by simpa using this
  rw [heq]
  have : i + 1 = 1 + i := by omega
  rw [this]

theorem afterLabel_eq_none_of_plainLabel (l : Chars) (v : Nat)
    (h : plainLabel l = some v) : afterLabel l = none := by
  rw [afterLabel]
  by_cases hs : charsStartsWith l ("AFTER-".data)
  · exfalso
    cases l with
    | nil => simp [charsStartsWith, String.data] at hs
    | cons c cs =>
      have hs2 : (c == 'A' && charsStartsWith cs ("FTER-".data)) = true := hs
      have hcA : c = 'A' := by
        have := (Bool.and_eq_true _ _).mp hs2
        simpa using this.1
      subst hcA
      rw [plainLabel] at h
      simp only [List.dropWhile_cons, show jsIsSpace 'A' = false from rfl,
        Bool.false_eq_true, if_false, List.takeWhile_cons,
        show Char.isDigit 'A' = false from rfl, List.isEmpty_nil, if_true] at h
      cases h
  · rw [if_neg hs]

theorem labelled_ne_empty (labelFn : Chars → Option Nat) (content : String)
    (hnone : labelFn [] = none)
    (hlab : labelledFromOne labelFn (linesOf content) = true) : content ≠ "" := by
  intro hc
  subst hc
  have h0 := labelled_getD labelFn (linesOf "") hlab 0 (by decide)
  rw [show (linesOf "").getD 0 [] = ([] : Chars) from rfl] at h0
  rw [hnone] at h0
  cases h0

theorem mapAILine_labelled_after (content : String) (k : Nat)
    (hlab : labelledFromOne afterLabel (linesOf content) = true) :
    mapAILineToActualLine k content = k := by
  have hfact := labelled_getD afterLabel (linesOf content) hlab
  have hidx := jsFindIndex_labelled afterLabel (linesOf content) 1 k
    (by intro i hi; rw [hfact i hi])
  have hne : linesOf content ≠ [] := splitCh_ne_nil '\n' content.data
  have hmarks : hasAfterMarks (linesOf content) = true := by
    cases hl : linesOf content with
    | nil => exact absurd hl hne
    | cons l0 rest =>
      have h0 : afterLabel l0 = some 1 := by
        have hh := hfact 0 (by rw [hl]; simp)
        rw [hl] at hh
        simpa using hh
      rw [hasAfterMarks]
      exact List.any_eq_true.mpr ⟨l0, List.mem_cons_self l0 rest, by simp [h0]⟩
  rw [mapAILineToActualLine]
  simp only [hmarks, if_true, hidx]
  by_cases hk : 1 ≤ k ∧ k < 1 + (linesOf content).length
  · rw [if_pos hk]
    simp only []
    omega
  · rw [if_neg hk]

theorem mapAILine_labelled_plain (content : String) (k : Nat)
    (hlab : labelledFromOne plainLabel (linesOf content) = true) :
    mapAILineToActualLine k content = k := by
  have hfact := labelled_getD plainLabel (linesOf content) hlab
  have hidx := jsFindIndex_labelled plainLabel (linesOf content) 1 k
    (by intro i hi; rw [hfact i hi])
  have hne : linesOf content ≠ [] := splitCh_ne_nil '\n' content.data
  have hnoafter : hasAfterMarks (linesOf content) = false := by
    rw [hasAfterMarks]
    rw [List.any_eq_false]
    intro l hl
    obtain ⟨i, hget⟩ := List.mem_iff_get.mp hl
    have hgd : (linesOf content).getD i.1 [] = l := by
      rw [List.getD_eq_getElem (linesOf content) [] i.2]
      rw [← hget]
      exact (List.get_eq_getElem _ _).symm
    have hplain : plainLabel l = some (1 + i.1) := by
      have hf := hfact i.1 i.2
      rwa [hgd] at hf
    rw [afterLabel_eq_none_of_plainLabel l (1 + i.1) hplain]
    simp
  have hmarks : hasNumberMarks (linesOf content) = true := by
    cases hl : linesOf content with
    | nil => exact absurd hl hne
    | cons l0 rest =>
      have h0 : plainLabel l0 = some 1 := by
        have hh := hfact 0 (by rw [hl]; simp)
        rw [hl] at hh
        simpa using hh
      rw [hasNumberMarks]
      exact List.any_eq_true.mpr ⟨l0, List.mem_cons_self l0 rest, by simp [h0]⟩
  rw [mapAILineToActualLine]
  simp only [hnoafter, Bool.false_eq_true, if_false, hmarks, if_true, hidx]
  by_cases hk : 1 ≤ k ∧ k < 1 + (linesOf content).length
  · rw [if_pos hk]
    simp only []
    omega
  · rw [if_neg hk]

theorem postDecision_of_mapped (content : String) (k : Nat)
    (hne : content ≠ "")
    (hmap : mapAILineToActualLine k content = k) :
    (1 ≤ k ∧ k ≤ (linesOf content).length →
        postDecision k (some content) = .posted k)
    ∧ (¬(1 ≤ k ∧ k ≤ (linesOf content).length) →
        postDecision k (some content) =
          .droppedInvalid
            ("Line " ++ toString k ++ " out of range (1-" ++
              toString (linesOf content).length ++ ")") k k) := by
  have hv : (validateLineInFile k content).valid =
      (decide (1 ≤ k) && decide (k ≤ (linesOf content).length)) := by
    rw [validateLineInFile, if_neg hne]
    simp
  have herr : (validateLineInFile k content).error =
      (if (decide (1 ≤ k) && decide (k ≤ (linesOf content).length)) then none
       else some ("Line " ++ toString k ++ " out of range (1-" ++
         toString (linesOf content).length ++ ")")) := by
    rw [validateLineInFile, if_neg hne]
    simp
  constructor
  · intro hk
    have hvb : (decide (1 ≤ k) && decide (k ≤ (linesOf content).length)) = true := by
      simp [hk.1, hk.2]
    rw [postDecision]
    simp only [hmap]
    rw [if_pos (by rw [hv]; exact hvb)]
  · intro hk
    have hvb : (decide (1 ≤ k) && decide (k ≤ (linesOf content).length)) = false := by
      rw [Bool.and_eq_false_iff]
      by_cases h1 : 1 ≤ k
      · right
        simp only [decide_eq_false_iff_not]
        intro h2
        exact hk ⟨h1, h2⟩
      · left
        simp only [decide_eq_false_iff_not]
        exact h1
    rw [postDecision]
    simp only [hmap]
    rw [if_neg (by rw [hv, hvb]; exact Bool.false_ne_true)]
    rw [herr, if_neg (by rw [hvb]; exact Bool.false_ne_true)]
    rfl

/-- C2: for after-content rendered with per-line labels `1..N` (either the
`AFTER-nnn:` or the plain `nnn:` format), a reported number `k` resolves to
physical line `k` whenever `1 ≤ k ≤ N` and the comment is posted there; any
`k` outside `[1, N]` fails validation and the comment is dropped with the
out-of-range failure recorded — never clamped, never posted. -/
theorem reconciliation_round_trip (content : String) (k : Nat)
    (hlab : labelledFromOne afterLabel (linesOf content) = true ∨
            labelledFromOne plainLabel (linesOf content) = true) :
    mapAILineToActualLine k content = k
    ∧ (1 ≤ k ∧ k ≤ (linesOf content).length →
        postDecision k (some content) = .posted k)
    ∧ (¬(1 ≤ k ∧ k ≤ (linesOf content).length) →
        postDecision k (some content) =
          .droppedInvalid
            ("Line " ++ toString k ++ " out of range (1-" ++
              toString (linesOf content).length ++ ")") k k) := by
  have hmap : mapAILineToActualLine k content = k := by
    rcases hlab with h | h
    · exact mapAILine_labelled_after content k h
    · exact mapAILine_labelled_plain content k h
  have hne : content ≠ "" := by
    rcases hlab with h | h
    · exact labelled_ne_empty afterLabel content rfl h
    · exact labelled_ne_empty plainLabel content rfl h
  exact ⟨hmap, (postDecision_of_mapped content k hne hmap).1,
    (postDecision_of_mapped content k hne hmap).2⟩

/-- Exercises `reconciliation_round_trip` on `'  1: a\n  2: b\n  3: c'`:
label 2 posts at physical line 2, label 5 is dropped as out of range. -/
theorem reconciliation_round_trip_witness :
    postDecision 2 (some "  1: a\n  2: b\n  3: c") = .posted 2
    ∧ postDecision 5 (some "  1: a\n  2: b\n  3: c") =
        .droppedInvalid "Line 5 out of range (1-3)" 5 5 := by
  have h2 := reconciliation_round_trip "  1: a\n  2: b\n  3: c" 2 (Or.inr (by decide))
  have h5 := reconciliation_round_trip "  1: a\n  2: b\n  3: c" 5 (Or.inr (by decide))
  exact ⟨h2.2.1 (by decide), h5.2.2 (by decide)⟩

/-- C10: when the after-content does carry label prefixes but no line's label
equals the reported number `n`, `mapAILineToActualLine` falls back to `n`
unchanged, reinterpreting it as a direct 1-indexed physical position; if `n`
moreover lies in `[1, totalPhysicalLines]` the comment passes validation and
is posted at physical line `n` instead of being rejected as unresolvable. -/
theorem label_miss_falls_back (content : String) (n : Nat) :
    (hasAfterMarks (linesOf content) = true →
      (∀ l ∈ linesOf content, afterLabel l ≠ some n) →
      mapAILineToActualLine n content = n)
    ∧ (hasAfterMarks (linesOf content) = false →
       hasNumberMarks (linesOf content) = true →
      (∀ l ∈ linesOf content, plainLabel l ≠ some n) →
      mapAILineToActualLine n content = n)
    ∧ ((∀ l ∈ linesOf content, afterLabel l ≠ some n) →
       (∀ l ∈ linesOf content, plainLabel l ≠ some n) →
       content ≠ "" → 1 ≤ n → n ≤ (linesOf content).length →
       postDecision n (some content) = .posted n) := by
  have hafterNone : (∀ l ∈ linesOf content, afterLabel l ≠ some n) →
      jsFindIndex (fun l => afterLabel l == some n) (linesOf content) = none := by
    intro h
    exact (jsFindIndex_eq_none_iff _ _).mpr fun x hx => by simp [h x hx]
  have hplainNone : (∀ l ∈ linesOf content, plainLabel l ≠ some n) →
      jsFindIndex (fun l => plainLabel l == some n) (linesOf content) = none := by
    intro h
    exact (jsFindIndex_eq_none_iff _ _).mpr fun x hx => by simp [h x hx]
  have hA : hasAfterMarks (linesOf content) = true →
      (∀ l ∈ linesOf content, afterLabel l ≠ some n) →
      mapAILineToActualLine n content = n := by
    intro hmark hnone
    rw [mapAILineToActualLine]
    simp only [hmark, if_true, hafterNone hnone]
  have hP : hasAfterMarks (linesOf content) = false →
      hasNumberMarks (linesOf content) = true →
      (∀ l ∈ linesOf content, plainLabel l ≠ some n) →
      mapAILineToActualLine n content = n := by
    intro hnomark hmark hnone
    rw [mapAILineToActualLine]
    simp only [hnomark, Bool.false_eq_true, if_false, hmark, if_true, hplainNone hnone]
  refine ⟨hA, hP, ?_⟩
  intro hnone1 hnone2 hne h1 h2
  have hmap : mapAILineToActualLine n content = n := by
    by_cases hm : hasAfterMarks (linesOf content) = true
    · exact hA hm hnone1
    · by_cases hn : hasNumberMarks (linesOf content) = true
      · exact hP (Bool.eq_false_iff.mpr hm) hn hnone2
      · rw [mapAILineToActualLine]
        simp only [Bool.eq_false_iff.mpr hm, Bool.false_eq_true, if_false,
          Bool.eq_false_iff.mpr hn]
  exact (postDecision_of_mapped content n hne hmap).1 ⟨h1, h2⟩

/-- Exercises `label_miss_falls_back`: the rendering is labelled
`AFTER-010..012`, the model reports line 2 (no such label), and the comment
is posted at physical line 2. -/
theorem label_miss_falls_back_witness :
    mapAILineToActualLine 2 "AFTER-010: a\nAFTER-011: b\nAFTER-012: c" = 2
    ∧ postDecision 2 (some "AFTER-010: a\nAFTER-011: b\nAFTER-012: c") = .posted 2 := by
  have h := label_miss_falls_back "AFTER-010: a\nAFTER-011: b\nAFTER-012: c" 2
  exact ⟨h.1 (by decide) (by decide),
    h.2.2 (by decide) (by decide) (by decide) (by decide) (by decide)⟩

/-! Finding extraction, Scenario A (claim C4). -/

/-- C4: (a) on the model response
`- **Line 7: [Security Issue]** - hardcoded secret` / `**Fix:** use environment
variable` / `**Severity:** Critical`, the legacy extractor yields exactly one
Finding: line 7, the Security taxon (rendered `'Security Issue'` with its 🔒
icon), severity `'critical'`, problem `'hardcoded secret'` and fix
`'use environment variable'`; (b) the pattern rules are tried per line in
their fixed list order and the first matching rule alone determines the
result: when every earlier pattern fails, the patterns after the first match
are irrelevant. -/
theorem scenario_a_single_security_finding :
    (extractLineSpecificIssuesLegacy
        ("- **Line 7: [Security Issue]** - hardcoded secret\n" ++
          "**Fix:** use environment variable\n**Severity:** Critical") =
      [{ line := 7, type := "Security Issue", icon := "🔒", severity := "critical",
         problem := "hardcoded secret", fix := "use environment variable",
         originalType := "Security Issue" }])
    ∧ (∀ (p : RPattern) (ps qs : List RPattern) (line : Chars),
        (jsMatch p line).isSome = true → (∀ q ∈ ps, jsMatch q line = none) →
        extractLineFromText line (ps ++ p :: qs) = extractLineFromText line (ps ++ [p])) := by
  constructor
  · decide
  · intro p ps qs line hp hps
    induction ps with
    | nil =>
      obtain ⟨m, hm⟩ := Option.isSome_iff_exists.mp hp
      simp [extractLineFromText, List.findSome?_cons, hm]
    | cons q ps2 ih =>
      have hq : jsMatch q line = none := hps q (List.mem_cons_self q ps2)
      simp only [List.cons_append, extractLineFromText, List.findSome?_cons, hq,
        Option.map_none']
      exact ih fun r hr => hps r (List.mem_cons_of_mem q hr)

/-- Exercises the first-match clause of `scenario_a_single_security_finding`:
on the Scenario A headline, pattern 1 fails and pattern 2 matches, so the
remaining six patterns cannot change the extraction. -/
theorem scenario_a_single_security_finding_witness :
    extractLineFromText "- **Line 7: [Security Issue]** - hardcoded secret".data
        LINE_EXTRACTION_PATTERNS =
      extractLineFromText "- **Line 7: [Security Issue]** - hardcoded secret".data
        [LINE_EXTRACTION_PATTERNS.getD 0 ⟨true, []⟩, LINE_EXTRACTION_PATTERNS.getD 1 ⟨true, []⟩] := by
  have h := scenario_a_single_security_finding.2
    (LINE_EXTRACTION_PATTERNS.getD 1 ⟨true, []⟩)
    [LINE_EXTRACTION_PATTERNS.getD 0 ⟨true, []⟩]
    (LINE_EXTRACTION_PATTERNS.drop 2)
    "- **Line 7: [Security Issue]** - hardcoded secret".data
    (by decide) (by decide)
  exact h

/-! Deduplication lemmas (claim C6). -/

/-- Two issues agree on the `(line, problem)` deduplication key. -/
def sameKey (a b : Issue) : Prop := a.line = b.line ∧ a.problem = b.problem

theorem keyPred_congr {x y : Issue} (h : sameKey x y) :
    (fun i : Issue => i.line == x.line && i.problem == x.problem) =
      (fun i : Issue => i.line == y.line && i.problem == y.problem) := by
  funext i
  rw [h.1, h.2]

theorem dedup_branch_eq_some {l : List Issue} {i : Nat} {a : Issue}
    (h : (match l.get? i with
          | some issue =>
            if jsFindIndex (fun x => x.line == issue.line && x.problem == issue.problem) l
                == some i
            then some issue else none
          | none => none) = some a) :
    l.get? i = some a ∧
      jsFindIndex (fun x => x.line == a.line && x.problem == a.problem) l = some i := by
  cases hg : l.get? i with
  | none => rw [hg] at h; cases h
  | some issue =>
    rw [hg] at h
    dsimp only at h
    by_cases hff : jsFindIndex
        (fun x => x.line == issue.line && x.problem == issue.problem) l = some i
    · rw [if_pos (by simp [hff])] at h
      have ha := Option.some.inj h
      subst ha
      exact ⟨rfl, hff⟩
    · rw [if_neg (by simpa using hff)] at h
      cases h

theorem dedup_pairwise (l : List Issue) :
    (dedupByLineProblem l).Pairwise (fun a b => ¬ sameKey a b) := by
  rw [dedupByLineProblem]
  apply List.Pairwise.filterMap _ ?_ (List.pairwise_lt_range l.length)
  intro i j hij a ha b hb hkey
  have ha2 := dedup_branch_eq_some ha
  have hb2 := dedup_branch_eq_some hb
  have hpe := keyPred_congr hkey
  rw [hpe] at ha2
  rw [ha2.2] at hb2
  exact absurd (Option.some.inj hb2.2) (by omega)

theorem dedup_covers (l : List Issue) (y : Issue) (hy : y ∈ l) :
    ∃ z ∈ dedupByLineProblem l, sameKey z y := by
  have hsome := jsFindIndex_isSome_of_mem
    (fun i => i.line == y.line && i.problem == y.problem) hy (by simp)
  obtain ⟨i0, hi0⟩ := Option.isSome_iff_exists.mp hsome
  obtain ⟨z, hz, hpz⟩ := jsFindIndex_some_spec _ l i0 hi0
  have hkey : sameKey z y := by
    constructor
    · exact beq_iff_eq.mp ((Bool.and_eq_true _ _).mp hpz).1
    · exact beq_iff_eq.mp ((Bool.and_eq_true _ _).mp hpz).2
  have hlt : i0 < l.length := by
    cases hlen : Nat.lt_or_ge i0 l.length with
    | inl hl => exact hl
    | inr hr => rw [List.get?_eq_none.mpr hr] at hz; cases hz
  refine ⟨z, ?_, hkey⟩
  rw [dedupByLineProblem]
  apply List.mem_filterMap.mpr
  refine ⟨i0, List.mem_range.mpr hlt, ?_⟩
  rw [hz]
  dsimp only
  rw [if_pos]
  rw [keyPred_congr hkey, hi0]
  simp

theorem sortByLine_dedup_pairwise (l : List Issue) :
    (sortByLine (dedupByLineProblem l)).Pairwise (fun a b => ¬ sameKey a b) := by
  have hsymm : ∀ {x y : Issue}, ¬ sameKey x y → ¬ sameKey y x :=
    fun h hc => h ⟨hc.1.symm, hc.2.symm⟩
  exact ((List.perm_insertionSort lineLe (dedupByLineProblem l)).pairwise_iff hsymm).mpr
    (dedup_pairwise l)

theorem legacy_extraction_pairwise (aiAnalysis : String) :
    (extractLineSpecificIssuesLegacy aiAnalysis).Pairwise (fun a b => ¬ sameKey a b) := by
  rw [extractLineSpecificIssuesLegacy]
  by_cases h : aiAnalysis = ""
  · rw [if_pos h]; exact List.Pairwise.nil
  · rw [if_neg h]; exact sortByLine_dedup_pairwise _

/-- C6: the extraction step never delivers two findings that agree on both
line number and description — any two findings with the same
`(line, problem)` key collapse to one (the first occurrence survives and
covers every duplicate). -/
theorem extraction_deduplicated (lineSpecificIssues : List InputIssue)
    (aiAnalysisText : String) :
    (extractLineSpecificIssuesFromKeyFindings lineSpecificIssues aiAnalysisText).Pairwise
      (fun a b => ¬ sameKey a b)
    ∧ ∀ y ∈ rawIssuesFromKeyFindings lineSpecificIssues,
        ∃ z ∈ extractLineSpecificIssuesFromKeyFindings lineSpecificIssues aiAnalysisText,
          sameKey z y := by
  by_cases hk : lineSpecificIssues = []
  · subst hk
    have hred : extractLineSpecificIssuesFromKeyFindings [] aiAnalysisText =
        (if ([] : List Issue).isEmpty && aiAnalysisText ≠ "" then
          extractLineSpecificIssuesLegacy aiAnalysisText
         else sortByLine (dedupByLineProblem [])) := rfl
    constructor
    · rw [hred]
      by_cases ha : aiAnalysisText = ""
      · subst ha
        rw [if_neg (by decide)]
        exact sortByLine_dedup_pairwise []
      · rw [if_pos (by simp [ha])]
        exact legacy_extraction_pairwise _
    · intro y hy
      simp [rawIssuesFromKeyFindings] at hy
  · have hlen : lineSpecificIssues.length > 0 := List.length_pos.mpr hk
    have hraw : rawIssuesFromKeyFindings lineSpecificIssues ≠ [] := by
      simp [rawIssuesFromKeyFindings, hk]
    have hissue : (if lineSpecificIssues.length > 0 then
        rawIssuesFromKeyFindings lineSpecificIssues else ([] : List Issue)) =
        rawIssuesFromKeyFindings lineSpecificIssues := if_pos hlen
    have hbranch : extractLineSpecificIssuesFromKeyFindings lineSpecificIssues aiAnalysisText =
        sortByLine (dedupByLineProblem (rawIssuesFromKeyFindings lineSpecificIssues)) := by
      simp only [extractLineSpecificIssuesFromKeyFindings]
      rw [hissue]
      rw [if_neg (by simp [List.isEmpty_iff, hraw])]
    rw [hbranch]
    refine ⟨sortByLine_dedup_pairwise _, ?_⟩
    intro y hy
    obtain ⟨z, hz, hkey⟩ := dedup_covers (rawIssuesFromKeyFindings lineSpecificIssues) y hy
    exact ⟨z, ((List.perm_insertionSort lineLe _).mem_iff).mpr hz, hkey⟩

/-- Exercises `extraction_deduplicated` on an input with an exact duplicate
finding: a single representative with its key survives. -/
theorem extraction_deduplicated_witness :
    ∃ z ∈ extractLineSpecificIssuesFromKeyFindings
        [⟨3, "t", "low", "dup"⟩, ⟨3, "t", "low", "dup"⟩] "",
      sameKey z (processIssueFromKeyFindings ⟨3, "t", "low", "dup"⟩) := by
  have h := (extraction_deduplicated [⟨3, "t", "low", "dup"⟩, ⟨3, "t", "low", "dup"⟩] "").2
  exact h (processIssueFromKeyFindings ⟨3, "t", "low", "dup"⟩) (by decide)

/-! Index-aligned diff records (claim C9). -/

/-- C9 counterexample: in `getChangedLines "\nx" "y\nx"` the before file has
an (empty) line 1 and the after file's line 1 is `"y"` — both lines exist and
differ — yet the record is classified `"added"`, not `"modified"`, because
the code tests JS falsiness (`!beforeLine`), which conflates a missing line
with an existing empty one. -/
theorem empty_before_line_not_modified :
    0 < (linesOf "\nx").length ∧ 0 < (linesOf "y\nx").length
    ∧ (linesOf "\nx").getD 0 [] ≠ (linesOf "y\nx").getD 0 []
    ∧ (getChangedLines "\nx" "y\nx").map (fun r => (r.lineNumber, r.changeType)) =
        [(1, "added")] := by
  decide

/-- C9 (amended): for non-empty before/after contents, `getChangedLines`
produces a record exactly for the indices `i` (up to the longer file's
length) where the before line — defaulted to `""` when missing — differs
from the defaulted after line; the record carries `lineNumber = i + 1` and is
classified `"added"` when the before entry is missing *or empty*, `"deleted"`
when the before entry is non-empty but the after entry is missing or empty,
and `"modified"` only when both entries are non-empty. -/
theorem getChangedLines_mem_iff (before after : String)
    (hb : before ≠ "") (ha : after ≠ "") (r : ChangedLine) :
    r ∈ getChangedLines before after ↔
      ∃ i, i < max (linesOf before).length (linesOf after).length ∧
        (linesOf before).getD i [] ≠ (linesOf after).getD i [] ∧
        r = { lineNumber := i + 1
              beforeLine := String.mk ((linesOf before).getD i [])
              afterLine := String.mk ((linesOf after).getD i [])
              changeType :=
                if ((linesOf before).getD i []).isEmpty then "added"
                else if ((linesOf after).getD i []).isEmpty then "deleted"
                else "modified" } := by
  rw [getChangedLines]
  rw [if_neg (by simp [hb, ha])]
  simp only [List.mem_filterMap, List.mem_range]
  constructor
  · rintro ⟨i, hi, hf⟩
    by_cases hc : (linesOf before).getD i [] ≠ (linesOf after).getD i []
    · rw [if_pos hc] at hf
      exact ⟨i, hi, hc, (Option.some.inj hf).symm⟩
    · rw [if_neg hc] at hf
      cases hf
  · rintro ⟨i, hi, hc, hr⟩
    refine ⟨i, hi, ?_⟩
    rw [if_pos hc, hr]

/-- Exercises `getChangedLines_mem_iff`: the single record of the
counterexample diff is exactly the one the characterization predicts. -/
theorem getChangedLines_mem_iff_witness :
    (⟨1, "", "y", "added"⟩ : ChangedLine) ∈ getChangedLines "\nx" "y\nx" := by
  have h := getChangedLines_mem_iff "\nx" "y\nx" (by decide) (by decide)
    ⟨1, "", "y", "added"⟩
  exact h.mpr ⟨0, by decide, by decide, by decide⟩

/-! Delivered-comment ordering and cap (claim C3). -/

theorem orderedInsert_lex (a : Issue) :
    ∀ (l : List Issue), List.Sorted sevGe l → l.Pairwise sevLineLex →
      (∀ x ∈ l, a.line ≤ x.line) →
      (List.orderedInsert sevGe a l).Pairwise sevLineLex := by
  intro l
  induction l with
  | nil =>
    intro _ _ _
    simp [List.orderedInsert]
  | cons b t ih =>
    intro hs hp hline
    rw [List.orderedInsert]
    by_cases hab : sevGe a b
    · rw [if_pos hab]
      refine List.Pairwise.cons ?_ hp
      intro x hx
      rcases List.mem_cons.mp hx with rfl | hxt
      · rcases Nat.lt_or_ge (severityOrder x.severity) (severityOrder a.severity) with hlt | hge
        · exact Or.inl hlt
        · exact Or.inr ⟨by unfold sevGe at hab; omega, hline x (List.mem_cons_self x t)⟩
      · have hbx : sevGe b x := List.rel_of_sorted_cons hs x hxt
        rcases Nat.lt_or_ge (severityOrder x.severity) (severityOrder a.severity) with hlt | hge
        · exact Or.inl hlt
        · exact Or.inr ⟨by unfold sevGe at hab hbx; omega,
            hline x (List.mem_cons_of_mem b hxt)⟩
    · rw [if_neg hab]
      refine List.Pairwise.cons ?_
        (ih hs.of_cons (List.Pairwise.of_cons hp)
          (fun x hx => hline x (List.mem_cons_of_mem b hx)))
      intro y hy
      rcases (List.mem_orderedInsert sevGe).mp hy with rfl | hyt
      · left
        unfold sevGe at hab
        omega
      · exact (List.pairwise_cons.mp hp).1 y hyt

theorem insertionSort_lex :
    ∀ l : List Issue, List.Sorted lineLe l →
      (List.insertionSort sevGe l).Pairwise sevLineLex := by
  intro l
  induction l with
  | nil => intro _; exact List.Pairwise.nil
  | cons a t ih =>
    intro hl
    rw [List.insertionSort]
    apply orderedInsert_lex
    · exact List.sorted_insertionSort sevGe t
    · exact ih hl.of_cons
    · intro x hx
      exact List.rel_of_sorted_cons hl x
        (((List.perm_insertionSort sevGe t).mem_iff).mp hx)

theorem sortByLine_sorted (l : List Issue) : List.Sorted lineLe (sortByLine l) :=
  List.sorted_insertionSort lineLe l

theorem legacy_extraction_sorted (aiAnalysis : String) :
    List.Sorted lineLe (extractLineSpecificIssuesLegacy aiAnalysis) := by
  rw [extractLineSpecificIssuesLegacy]
  by_cases h : aiAnalysis = ""
  · rw [if_pos h]; exact List.Pairwise.nil
  · rw [if_neg h]; exact sortByLine_sorted _

theorem keyFindings_extraction_sorted (lineSpecificIssues : List InputIssue)
    (aiAnalysisText : String) :
    List.Sorted lineLe
      (extractLineSpecificIssuesFromKeyFindings lineSpecificIssues aiAnalysisText) := by
  by_cases hk : lineSpecificIssues = []
  · subst hk
    have hred : extractLineSpecificIssuesFromKeyFindings [] aiAnalysisText =
        (if ([] : List Issue).isEmpty && aiAnalysisText ≠ "" then
          extractLineSpecificIssuesLegacy aiAnalysisText
         else sortByLine (dedupByLineProblem [])) := rfl
    rw [hred]
    by_cases ha : aiAnalysisText = ""
    · subst ha
      rw [if_neg (by decide)]
      exact sortByLine_sorted []
    · rw [if_pos (by simp [ha])]
      exact legacy_extraction_sorted _
  · have hlen : lineSpecificIssues.length > 0 := List.length_pos.mpr hk
    have hraw : rawIssuesFromKeyFindings lineSpecificIssues ≠ [] := by
      simp [rawIssuesFromKeyFindings, hk]
    have hissue : (if lineSpecificIssues.length > 0 then
        rawIssuesFromKeyFindings lineSpecificIssues else ([] : List Issue)) =
        rawIssuesFromKeyFindings lineSpecificIssues := if_pos hlen
    have hbranch : extractLineSpecificIssuesFromKeyFindings lineSpecificIssues aiAnalysisText =
        sortByLine (dedupByLineProblem (rawIssuesFromKeyFindings lineSpecificIssues)) := by
      simp only [extractLineSpecificIssuesFromKeyFindings]
      rw [hissue]
      rw [if_neg (by simp [List.isEmpty_iff, hraw])]
    rw [hbranch]
    exact sortByLine_sorted _

theorem lineIssuesFor_sorted (keyFindings : Option (List InputIssue)) (aiAnalysis : String) :
    List.Sorted lineLe (lineIssuesFor keyFindings aiAnalysis) := by
  cases keyFindings with
  | some kf => exact keyFindings_extraction_sorted kf aiAnalysis
  | none => exact legacy_extraction_sorted aiAnalysis

/-- C3 (amended): the delivered comment set is capped at `MAX_COMMENTS = 10`
(`length = min extracted 10`).  When more than 10 findings were extracted,
the delivered list is ordered by severity rank non-increasing with ties
broken by ascending line (JS stable sort over the line-sorted extraction
output), and every dropped finding ranks no higher than every delivered one.
When 10 or fewer findings were extracted, however, `prioritizeIssues` is
never invoked and the findings are delivered exactly as extracted — in
ascending line order, with no severity ordering enforced (the claim's
`for every input finding set, including sets of 10 or fewer` is refuted by
the counterexample). -/
theorem delivered_comments_capped_and_ordered (keyFindings : Option (List InputIssue))
    (aiAnalysis : String) :
    (issuesToPost keyFindings aiAnalysis).length =
      min (lineIssuesFor keyFindings aiAnalysis).length MAX_COMMENTS
    ∧ (MAX_COMMENTS < (lineIssuesFor keyFindings aiAnalysis).length →
        (issuesToPost keyFindings aiAnalysis).Pairwise sevLineLex
        ∧ ∀ a ∈ issuesToPost keyFindings aiAnalysis,
            ∀ b ∈ lineIssuesFor keyFindings aiAnalysis,
              b ∉ issuesToPost keyFindings aiAnalysis →
              severityOrder b.severity ≤ severityOrder a.severity)
    ∧ ((lineIssuesFor keyFindings aiAnalysis).length ≤ MAX_COMMENTS →
        issuesToPost keyFindings aiAnalysis = lineIssuesFor keyFindings aiAnalysis
        ∧ (issuesToPost keyFindings aiAnalysis).Pairwise lineLe) := by
  by_cases hbig : MAX_COMMENTS < (lineIssuesFor keyFindings aiAnalysis).length
  · have hpost : issuesToPost keyFindings aiAnalysis =
        ((lineIssuesFor keyFindings aiAnalysis).insertionSort sevGe).take MAX_COMMENTS := by
      simp only [issuesToPost]
      rw [if_pos hbig]
      rfl
    have hslen : ((lineIssuesFor keyFindings aiAnalysis).insertionSort sevGe).length =
        (lineIssuesFor keyFindings aiAnalysis).length :=
      (List.perm_insertionSort sevGe _).length_eq
    have hlex : ((lineIssuesFor keyFindings aiAnalysis).insertionSort sevGe).Pairwise
        sevLineLex :=
      insertionSort_lex _ (lineIssuesFor_sorted keyFindings aiAnalysis)
    refine ⟨?_, fun _ => ⟨?_, ?_⟩, fun hle => absurd hbig (by omega)⟩
    · rw [hpost, List.length_take, hslen, Nat.min_comm]
    · rw [hpost]
      exact hlex.sublist (List.take_sublist _ _)
    · intro a ha b hb hbnot
      rw [hpost] at ha hbnot
      have hbs : b ∈ (lineIssuesFor keyFindings aiAnalysis).insertionSort sevGe :=
        ((List.perm_insertionSort sevGe _).mem_iff).mpr hb
      have hbdrop : b ∈ ((lineIssuesFor keyFindings aiAnalysis).insertionSort sevGe).drop
          MAX_COMMENTS := by
        rcases List.mem_append.mp
          ((List.take_append_drop MAX_COMMENTS
            ((lineIssuesFor keyFindings aiAnalysis).insertionSort sevGe)) ▸ hbs) with h1 | h2
        · exact absurd h1 hbnot
        · exact h2
      have hsorted : ((lineIssuesFor keyFindings aiAnalysis).insertionSort sevGe).Pairwise
          sevGe := List.sorted_insertionSort sevGe _
      have hcross := (List.pairwise_append.mp
        ((List.take_append_drop MAX_COMMENTS
          ((lineIssuesFor keyFindings aiAnalysis).insertionSort sevGe)).symm ▸
          hsorted)).2.2
      exact hcross a ha b hbdrop
  · have hpost : issuesToPost keyFindings aiAnalysis = lineIssuesFor keyFindings aiAnalysis := by
      simp only [issuesToPost]
      rw [if_neg hbig]
    refine ⟨?_, fun hc => absurd hc hbig, fun _ => ⟨hpost, ?_⟩⟩
    · rw [hpost, Nat.min_eq_left (by omega)]
    · rw [hpost]
      exact lineIssuesFor_sorted keyFindings aiAnalysis

/-- Exercises `delivered_comments_capped_and_ordered` on the 15-finding
input `kf15`: exactly 10 comments are delivered, ordered by severity rank
descending with ties by ascending line. -/
theorem delivered_comments_capped_and_ordered_witness :
    (issuesToPost (some kf15) "").length = 10
    ∧ (issuesToPost (some kf15) "").Pairwise sevLineLex := by
  have h := delivered_comments_capped_and_ordered (some kf15) ""
  refine ⟨?_, (h.2.1 (by decide)).1⟩
  rw [h.1]
  decide

/-- C3 counterexample: with only two extracted findings (low severity at
line 1, critical at line 2) the cap branch is never taken and the comments
are delivered in ascending line order `[low, critical]`, which is *not*
non-increasing in severity — the claimed ordering fails for finding sets of
10 or fewer. -/
theorem delivered_not_severity_ordered_when_ten_or_fewer :
    ¬ (issuesToPost (some [⟨1, "style", "low", "naming unclear"⟩,
        ⟨2, "security", "critical", "sql injection"⟩]) "").Pairwise sevGe := by
  decide

end PRReview
